import Mathlib

/-!
Verification of the eudore structured-logging engine (`logger.go`).

Go strings and byte slices are modelled as `List Nat` (each element one byte);
machine integers (`int`, `int32`, `LoggerLevel`) are modelled as `Int`, where
`/` and `%` on `Int` (euclidean division with positive divisor) agree with
Go's arithmetic shift and two's-complement low-bits extraction; fallible Go
functions returning `(T, error)` are modelled as `Option`.  Runtime-dependent
inputs (the wall clock, `time.Time` formatting, `runtime.Caller` results) are
supplied through an explicit environment record, and the side effects of the
writer (bytes written, entries pooled, sync calls) are threaded as explicit
state.
-/

/-- UTF-8 encoding of one unicode scalar value (standard encoding; used to
spell out the bytes of Go source-string literals). -/
def utf8EncodeChar (c : Nat) : List Nat :=
  if c < 0x80 then [c]
  else if c < 0x800 then [0xC0 ||| (c >>> 6), 0x80 ||| (c &&& 0x3F)]
  else if c < 0x10000 then
    [0xE0 ||| (c >>> 12), 0x80 ||| ((c >>> 6) &&& 0x3F), 0x80 ||| (c &&& 0x3F)]
  else
    [0xF0 ||| (c >>> 18), 0x80 ||| ((c >>> 12) &&& 0x3F),
     0x80 ||| ((c >>> 6) &&& 0x3F), 0x80 ||| (c &&& 0x3F)]

/-- Bytes of a Go string literal (Go source is UTF-8). -/
def gb (s : String) : List Nat :=
  s.data.flatMap (fun c => utf8EncodeChar c.toNat)

/-- The fixed per-severity level-name byte strings written by the JSON
formatter (`loggerlevels`, logger.go:601), with the inherited misspelling
of the warning literal. -/
def loggerlevels : List (List Nat) :=
  [gb "DEBUG", gb "INFO", gb "WARIRNG", gb "ERROR", gb "FATAL"]

/-- Modelled from the spec: `DefaultLoggerLevelString`, the five severity
name literals used by `LoggerLevel.String`/`MarshalText`/`UnmarshalText`, is
declared outside the sampled source files.  Per §6 and §9 of the spec the
level names are fixed literal strings, identical across the encode and decode
paths, including the inherited misspelling of the warning literal. -/
def DefaultLoggerLevelString : List (List Nat) :=
  [gb "DEBUG", gb "INFO", gb "WARIRNG", gb "ERROR", gb "FATAL"]

/-- `LoggerLevel.String` (logger.go:639): indexes `DefaultLoggerLevelString`.
The Go code panics for a level outside 0..4; callers only use 0..4. -/
def LoggerLevelString (l : Int) : List Nat :=
  DefaultLoggerLevelString.getD l.toNat []

/-- `LoggerLevel.MarshalText` (logger.go:644): the text encoding of a level
(the error result is always nil in the source, so it is omitted). -/
def MarshalText (l : Int) : List Nat :=
  LoggerLevelString l

/-- Uppercasing of one byte: the action of Go's `strings.ToUpper` on an ASCII
byte (the model is faithful for bytes < 0x80; non-ASCII Unicode case mapping
is outside this byte-level model). -/
def upb (b : Nat) : Nat :=
  if 97 ≤ b ∧ b ≤ 122 then b - 32 else b

/-- ASCII uppercasing of a byte string (`strings.ToUpper` on ASCII input). -/
def asciiToUpper (s : List Nat) : List Nat :=
  s.map upb

/-- Decimal digit test on a byte. -/
def goIsDigit (b : Nat) : Bool :=
  decide (48 ≤ b ∧ b ≤ 57)

/-- Digit-run part of Go `strconv.ParseInt`: at least one decimal digit and
the value must fit in int64 (negative values down to -2^63 when `neg`). -/
def goAtoiCore (neg : Bool) (digits : List Nat) : Option Int :=
  if digits = [] then none
  else if digits.all goIsDigit then
    let v : Nat := digits.foldl (fun a d => a * 10 + (d - 48)) 0
    if neg then (if v ≤ 9223372036854775808 then some (-(v : Int)) else none)
    else (if v < 9223372036854775808 then some (v : Int) else none)
  else none

/-- Go `strconv.Atoi` (= `ParseInt` base 10 on 64-bit int) on a byte string:
an optional single sign, then at least one decimal digit, and the value must
fit in int64; anything else is an error (`none`). -/
def goAtoi (s : List Nat) : Option Int :=
  match s with
  | [] => none
  | b :: rest =>
    if b = 43 ∨ b = 45 then goAtoiCore (decide (b = 45)) rest
    else goAtoiCore false (b :: rest)

/-- The linear search over `DefaultLoggerLevelString` performed by the
`for i, s := range` loop of `LoggerLevel.UnmarshalText` (logger.go:651). -/
def findLevelIdx (str : List Nat) : List (List Nat) → Nat → Option Nat
  | [], _ => none
  | nm :: rest, i => if nm = str then some i else findLevelIdx str rest (i + 1)

/-- `LoggerLevel.UnmarshalText` (logger.go:649): uppercase the input, match a
level-name literal, otherwise parse a number in -1 < n < 5.  `none` models
returning `ErrLoggerLevelUnmarshalText`. -/
def UnmarshalText (text : List Nat) : Option Int :=
  let str := asciiToUpper text
  match findLevelIdx str DefaultLoggerLevelString 0 with
  | some i => some (i : Int)
  | none =>
    match goAtoi str with
    | some n => if n < 5 ∧ -1 < n then some n else none
    | none => none

/-- Spec-side (§6): the five fixed level-name literals, Debug to Fatal. -/
def levelNameSpec : Fin 5 → List Nat :=
  fun i => [gb "DEBUG", gb "INFO", gb "WARIRNG", gb "ERROR", gb "FATAL"].get i

/-- Spec-side digit-run value: `some v` when `ds` is a nonempty run of
decimal digits with value `v`. -/
def decDigits (ds : List Nat) : Option Nat :=
  if ds = [] then none
  else if ds.all goIsDigit then
    some (ds.foldl (fun a b => a * 10 + (b - 48)) 0)
  else none

/-- Spec-side (§6): `numParse s = some n` when `s` is a decimal numeral
(optional sign, at least one digit) denoting the integer `n`. -/
def numParse (s : List Nat) : Option Int :=
  match s with
  | [] => none
  | b :: rest =>
    let digits := if b = 43 ∨ b = 45 then rest else b :: rest
    (decDigits digits).map (fun v => if b = 45 then -(v : Int) else (v : Int))

/-- Second-byte lower bound assigned by Go utf8's `first`/`acceptRanges`
tables to a first byte (0x80 for all leading bytes except 0xE0 and 0xF0). -/
def acceptLo (b0 : Nat) : Nat :=
  if b0 = 0xE0 then 0xA0 else if b0 = 0xF0 then 0x90 else 0x80

/-- Second-byte upper bound assigned by Go utf8's `first`/`acceptRanges`
tables to a first byte (0xBF for all leading bytes except 0xED and 0xF4). -/
def acceptHi (b0 : Nat) : Nat :=
  if b0 = 0xED then 0x9F else if b0 = 0xF4 then 0x8F else 0xBF

/-- Go `utf8.DecodeRune(InString)`: the decoded rune and its byte size,
with the byte-range dispatch of Go's `first` table unrolled per size class;
(0xFFFD, 0) on empty input, (0xFFFD, 1) on an invalid or truncated
sequence.  Continuation bytes beyond the second must lie in 0x80..0xBF. -/
def utf8DecodeRune (s : List Nat) : Nat × Nat :=
  match s with
  | [] => (0xFFFD, 0)
  | b0 :: rest =>
    if b0 < 0x80 then (b0, 1)
    else if b0 < 0xC2 then (0xFFFD, 1)
    else if b0 ≤ 0xDF then
      if rest.length < 1 then (0xFFFD, 1)
      else if ¬(acceptLo b0 ≤ rest.getD 0 0 ∧ rest.getD 0 0 ≤ acceptHi b0) then (0xFFFD, 1)
      else ((b0 % 0x20) * 0x40 + (rest.getD 0 0) % 0x40, 2)
    else if b0 ≤ 0xEF then
      if rest.length < 2 then (0xFFFD, 1)
      else if ¬(acceptLo b0 ≤ rest.getD 0 0 ∧ rest.getD 0 0 ≤ acceptHi b0) then (0xFFFD, 1)
      else if ¬(0x80 ≤ rest.getD 1 0 ∧ rest.getD 1 0 ≤ 0xBF) then (0xFFFD, 1)
      else ((b0 % 0x10) * 0x1000 + (rest.getD 0 0 % 0x40) * 0x40 + rest.getD 1 0 % 0x40, 3)
    else if b0 ≤ 0xF4 then
      if rest.length < 3 then (0xFFFD, 1)
      else if ¬(acceptLo b0 ≤ rest.getD 0 0 ∧ rest.getD 0 0 ≤ acceptHi b0) then (0xFFFD, 1)
      else if ¬(0x80 ≤ rest.getD 1 0 ∧ rest.getD 1 0 ≤ 0xBF) then (0xFFFD, 1)
      else if ¬(0x80 ≤ rest.getD 2 0 ∧ rest.getD 2 0 ≤ 0xBF) then (0xFFFD, 1)
      else ((b0 % 8) * 0x40000 + (rest.getD 0 0 % 0x40) * 0x1000 +
            (rest.getD 1 0 % 0x40) * 0x40 + rest.getD 2 0 % 0x40, 4)
    else (0xFFFD, 1)

/-- Spec-side: a UTF-8 continuation byte. -/
abbrev isCont (b : Nat) : Prop := 0x80 ≤ b ∧ b ≤ 0xBF

/-- Spec-side: length of the well-formed UTF-8 multi-byte sequence starting
at the head of `s`, following the Unicode standard's table of well-formed
byte sequences (Table 3-7); `none` when the head starts no such sequence. -/
def utf8ValidLen (s : List Nat) : Option Nat :=
  match s with
  | [] => none
  | b0 :: rest =>
    if 1 ≤ rest.length ∧ 0xC2 ≤ b0 ∧ b0 ≤ 0xDF ∧ isCont (rest.getD 0 0) then some 2
    else if 2 ≤ rest.length ∧
        ((b0 = 0xE0 ∧ 0xA0 ≤ rest.getD 0 0 ∧ rest.getD 0 0 ≤ 0xBF) ∨
         (0xE1 ≤ b0 ∧ b0 ≤ 0xEC ∧ isCont (rest.getD 0 0)) ∨
         (b0 = 0xED ∧ 0x80 ≤ rest.getD 0 0 ∧ rest.getD 0 0 ≤ 0x9F) ∨
         (0xEE ≤ b0 ∧ b0 ≤ 0xEF ∧ isCont (rest.getD 0 0))) ∧
        isCont (rest.getD 1 0) then some 3
    else if 3 ≤ rest.length ∧
        ((b0 = 0xF0 ∧ 0x90 ≤ rest.getD 0 0 ∧ rest.getD 0 0 ≤ 0xBF) ∨
         (0xF1 ≤ b0 ∧ b0 ≤ 0xF3 ∧ isCont (rest.getD 0 0)) ∨
         (b0 = 0xF4 ∧ 0x80 ≤ rest.getD 0 0 ∧ rest.getD 0 0 ≤ 0x8F)) ∧
        isCont (rest.getD 1 0) ∧ isCont (rest.getD 2 0) then some 4
    else none

/-- The `_hex` digit table (logger.go:607). -/
def hexDigit (n : Nat) : Nat :=
  (gb "0123456789abcdef").getD n 0

/-- `tryAddRuneSelf` (logger.go:899): handles one single-byte character,
returning the bytes appended to the buffer; `none` when b ≥ utf8.RuneSelf. -/
def tryAddRuneSelf (b : Nat) : Option (List Nat) :=
  if 0x80 ≤ b then none
  else if 0x20 ≤ b ∧ b ≠ 92 ∧ b ≠ 34 then some [b]
  else if b = 92 ∨ b = 34 then some [92, b]
  else if b = 10 then some [92, 110]
  else if b = 13 then some [92, 114]
  else if b = 9 then some [92, 116]
  else some [92, 117, 48, 48, hexDigit (b / 16), hexDigit (b % 16)]

/-- `tryAddRuneError` (logger.go:929): the replacement-character escape
`\ufffd` for a decode error of size one. -/
def tryAddRuneError (r size : Nat) : Option (List Nat) :=
  if r = 0xFFFD ∧ size = 1 then some [92, 117, 102, 102, 102, 100] else none

/-- The scan loop of `loggerFormatWriteString` (logger.go:865), made
structurally recursive on a fuel counter; each iteration consumes at least
one input byte, so fuel = input length reproduces the Go loop exactly.
Returns the bytes appended to the entry buffer. -/
def loggerFormatWriteStringGo : Nat → List Nat → List Nat
  | 0, _ => []
  | _ + 1, [] => []
  | fuel + 1, b :: rest =>
    match tryAddRuneSelf b with
    | some out => out ++ loggerFormatWriteStringGo fuel rest
    | none =>
      match tryAddRuneError (utf8DecodeRune (b :: rest)).1 (utf8DecodeRune (b :: rest)).2 with
      | some out => out ++ loggerFormatWriteStringGo fuel rest
      | none =>
        (b :: rest).take (utf8DecodeRune (b :: rest)).2 ++
          loggerFormatWriteStringGo fuel (rest.drop ((utf8DecodeRune (b :: rest)).2 - 1))

/-- `loggerFormatWriteString` (logger.go:865): safe escaping of a byte
string into the entry buffer. -/
def loggerFormatWriteString (s : List Nat) : List Nat :=
  loggerFormatWriteStringGo s.length s

/-- Spec-side (§4.3): the escaping described by the spec, clause by clause:
backslash, quote, newline, carriage return and tab get two-character
escapes; other bytes below 0x20 get a `\u00XX` escape; bytes ≥ 0x20 below
0x80 pass through; well-formed UTF-8 sequences pass through verbatim; each
byte of an invalid sequence becomes the replacement escape `\ufffd`. -/
def escapeSpecGo : Nat → List Nat → List Nat
  | 0, _ => []
  | _ + 1, [] => []
  | fuel + 1, b :: rest =>
    if b = 92 ∨ b = 34 then [92, b] ++ escapeSpecGo fuel rest
    else if b = 10 then [92, 110] ++ escapeSpecGo fuel rest
    else if b = 13 then [92, 114] ++ escapeSpecGo fuel rest
    else if b = 9 then [92, 116] ++ escapeSpecGo fuel rest
    else if b < 0x20 then
      [92, 117, 48, 48, hexDigit (b / 16), hexDigit (b % 16)] ++ escapeSpecGo fuel rest
    else if b < 0x80 then b :: escapeSpecGo fuel rest
    else
      match utf8ValidLen (b :: rest) with
      | some n => (b :: rest).take n ++ escapeSpecGo fuel (rest.drop (n - 1))
      | none => [92, 117, 102, 102, 102, 100] ++ escapeSpecGo fuel rest

/-- Spec-side escaping of a whole byte string. -/
def escapeSpec (s : List Nat) : List Nat := escapeSpecGo s.length s



/-- Go values attached to log fields or passed as message arguments: a
closed subset of the interface values the logger's field protocol
distinguishes (strings, ints, bools, nil, string slices, time.Time values
and context values, the latter two intercepted by control keys). -/
inductive GoVal where
  | vBool (b : Bool)
  | vInt (n : Int)
  | vStr (s : List Nat)
  | vNull
  | vStrList (l : List (List Nat))
  | vTime (t : Nat)
  | vCtx
deriving DecidableEq

/-- Runtime-supplied environment: wall clock, time formatting and
caller/stack introspection results, modelled as opaque inputs. -/
structure LogEnv where
  now : Nat
  fmtTime : Nat → List Nat → List Nat
  callerName : List Nat
  callerFile : List Nat
  callerLine : Int
  stackList : List (List Nat)
  timeText : Nat → List Nat
  timeJSON : Nat → List Nat
  ctxText : List Nat
  ctxJSON : List Nat

/-- `LoggerStd` (logger.go:94): one log entry / logger handle.  `Time = 0`
models the zero `time.Time` (`IsZero`). -/
structure LoggerStd where
  Time : Nat
  Message : List Nat
  Keys : List (List Nat)
  Vals : List GoVal
  Buffer : List Nat
  Timeformat : List Nat
  Logger : Bool
  Level : Int
  Depth : Int
deriving DecidableEq

/-- Decimal bytes of an integer (`strconv.AppendInt` base 10). -/
def intBytes (n : Int) : List Nat := gb (toString n)

/-- fmt's %v rendering of one `fmt.Sprintln` operand. -/
def govText (env : LogEnv) : GoVal → List Nat
  | .vBool b => if b then gb "true" else gb "false"
  | .vInt n => intBytes n
  | .vStr s => s
  | .vNull => gb "<nil>"
  | .vStrList l => [91] ++ List.intercalate [32] l ++ [93]
  | .vTime t => env.timeText t
  | .vCtx => env.ctxText

/-- `fmt.Sprintln(args...)` with the trailing newline removed, as the five
emit methods compute `entry.Message` (operands joined by single spaces). -/
def sprintlnT (env : LogEnv) (args : List GoVal) : List Nat :=
  List.intercalate [32] (args.map (govText env))

/-- `loggerFormatWriteValue` / `loggerFormatWriteReflect` (logger.go:708)
restricted to the `GoVal` subset: bools, ints, strings, nil and string
slices follow the corresponding reflect-kind branches; time values take the
json.Marshaler branch; context values are rendered via the environment. -/
def loggerFormatWriteValue (env : LogEnv) : GoVal → List Nat
  | .vBool b => if b then gb "true" else gb "false"
  | .vInt n => intBytes n
  | .vStr s => [34] ++ loggerFormatWriteString s ++ [34]
  | .vNull => gb "null"
  | .vStrList l =>
      if l.length = 0 then [91, 93]
      else [91] ++ List.intercalate [44]
            (l.map (fun s => [34] ++ loggerFormatWriteString s ++ [34])) ++ [93]
  | .vTime t => env.timeJSON t
  | .vCtx => env.ctxJSON

/-- `Depth |= 0x100` (enable caller capture): set bit 8. -/
def depthEnable (d : Int) : Int := if (d / 256) % 2 = 1 then d else d + 256

/-- `Depth |= 0x200` (stack capture): set bit 9. -/
def depthStack (d : Int) : Int := if (d / 512) % 2 = 1 then d else d + 512

/-- `Depth &^= 0x300` (disable capture): clear bits 8 and 9. -/
def depthDisable (d : Int) : Int := 1024 * (d / 1024) + d % 256

/-- `LoggerStd.withFieldDepth` (logger.go:577): integer deltas adjust the
depth, the three string tokens switch the capture mode, any other value is
appended as an ordinary field. -/
def withFieldDepth (e : LoggerStd) (key : List Nat) (v : GoVal) : LoggerStd :=
  match v with
  | .vInt n => { e with Depth := e.Depth + n }
  | .vStr s =>
    if s = gb "stack" then { e with Depth := depthStack e.Depth }
    else if s = gb "enable" then { e with Depth := depthEnable e.Depth }
    else if s = gb "disable" then { e with Depth := depthDisable e.Depth }
    else e
  | _ => { e with Keys := e.Keys ++ [key], Vals := e.Vals ++ [v] }

/-- The body of `LoggerStd.WithField` (logger.go:541) after the handle-clone
step: the control keys context/depth/time/logger are intercepted when the
value has the matching type; all other keys append an ordinary field. -/
def withFieldData (e : LoggerStd) (key : List Nat) (v : GoVal) : LoggerStd :=
  if key = gb "context" then
    match v with
    | .vCtx =>
      match e.Keys.findIdx? (fun k => k == gb "context") with
      | some i => { e with Vals := e.Vals.set i v }
      | none => { e with Keys := e.Keys ++ [key], Vals := e.Vals ++ [v] }
    | _ => { e with Keys := e.Keys ++ [key], Vals := e.Vals ++ [v] }
  else if key = gb "depth" then withFieldDepth e key v
  else if key = gb "time" then
    match v with
    | .vTime t => { e with Time := t }
    | _ => { e with Keys := e.Keys ++ [key], Vals := e.Vals ++ [v] }
  else if key = gb "logger" then
    match v with
    | .vBool true => { e with Logger := true }
    | _ => { e with Keys := e.Keys ++ [key], Vals := e.Vals ++ [v] }
  else { e with Keys := e.Keys ++ [key], Vals := e.Vals ++ [v] }

/-- `LoggerStdData` (logger.go:110): a backend strategy over explicit
state σ: entry acquisition, finalize, flush. -/
structure LoggerStdData (σ : Type) where
  getLogger : σ → LoggerStd × σ
  putLogger : σ → LoggerStd → σ
  sync : σ → σ

/-- `LoggerStd.getEntry` (logger.go:332): clone a handle into a freshly
acquired entry — copy Level and Depth; copy the base fields only when the
handle's Keys is nonempty. -/
def getEntry {σ : Type} (B : LoggerStdData σ) (st : σ) (e : LoggerStd) :
    LoggerStd × σ :=
  let p := B.getLogger st
  (if e.Keys.length ≠ 0 then
    { p.1 with Level := e.Level, Depth := e.Depth,
               Keys := p.1.Keys ++ e.Keys, Vals := p.1.Vals ++ e.Vals }
   else { p.1 with Level := e.Level, Depth := e.Depth }, p.2)

/-- `LoggerStd.WithField` (logger.go:541): clone when called on a handle,
then run the key interception body. -/
def WithField {σ : Type} (B : LoggerStdData σ) (st : σ) (e : LoggerStd)
    (key : List Nat) (v : GoVal) : LoggerStd × σ :=
  let p := if e.Logger then getEntry B st e else (e, st)
  (withFieldData p.1 key v, p.2)

/-- `LoggerStd.WithFields` (logger.go:523): clone when called on a handle,
then append the key and value slices verbatim (no interception). -/
def WithFields {σ : Type} (B : LoggerStdData σ) (st : σ) (e : LoggerStd)
    (keys : List (List Nat)) (vals : List GoVal) : LoggerStd × σ :=
  let p := if e.Logger then getEntry B st e else (e, st)
  ({ p.1 with Keys := p.1.Keys ++ keys, Vals := p.1.Vals ++ vals }, p.2)

/-- `LoggerStd.Debug` (logger.go:374): enabled iff the carried threshold is
below Info; on suppression the attached fields are discarded. -/
def DebugCall {σ : Type} (env : LogEnv) (B : LoggerStdData σ) (st : σ)
    (e : LoggerStd) (args : List GoVal) : σ :=
  let p := if e.Logger then getEntry B st e else (e, st)
  let e2 := if p.1.Level < 1 then { p.1 with Level := 0, Message := sprintlnT env args }
            else { p.1 with Keys := [], Vals := [] }
  B.putLogger p.2 e2

/-- `LoggerStd.Info` (logger.go:390). -/
def InfoCall {σ : Type} (env : LogEnv) (B : LoggerStdData σ) (st : σ)
    (e : LoggerStd) (args : List GoVal) : σ :=
  let p := if e.Logger then getEntry B st e else (e, st)
  let e2 := if p.1.Level < 2 then { p.1 with Level := 1, Message := sprintlnT env args }
            else { p.1 with Keys := [], Vals := [] }
  B.putLogger p.2 e2

/-- `LoggerStd.Warning` (logger.go:406). -/
def WarningCall {σ : Type} (env : LogEnv) (B : LoggerStdData σ) (st : σ)
    (e : LoggerStd) (args : List GoVal) : σ :=
  let p := if e.Logger then getEntry B st e else (e, st)
  let e2 := if p.1.Level < 3 then { p.1 with Level := 2, Message := sprintlnT env args }
            else { p.1 with Keys := [], Vals := [] }
  B.putLogger p.2 e2

/-- `LoggerStd.Error` (logger.go:422). -/
def ErrorCall {σ : Type} (env : LogEnv) (B : LoggerStdData σ) (st : σ)
    (e : LoggerStd) (args : List GoVal) : σ :=
  let p := if e.Logger then getEntry B st e else (e, st)
  let e2 := if p.1.Level < 4 then { p.1 with Level := 3, Message := sprintlnT env args }
            else { p.1 with Keys := [], Vals := [] }
  B.putLogger p.2 e2

/-- `LoggerStd.Fatal` (logger.go:438): unconditional. -/
def FatalCall {σ : Type} (env : LogEnv) (B : LoggerStdData σ) (st : σ)
    (e : LoggerStd) (args : List GoVal) : σ :=
  let p := if e.Logger then getEntry B st e else (e, st)
  B.putLogger p.2 { p.1 with Level := 4, Message := sprintlnT env args }

/-- Dispatch of the five leveled emit calls by severity rank 0..4. -/
def emitCall {σ : Type} (env : LogEnv) (B : LoggerStdData σ) (st : σ)
    (e : LoggerStd) (i : Fin 5) (args : List GoVal) : σ :=
  if i.val = 0 then DebugCall env B st e args
  else if i.val = 1 then InfoCall env B st e args
  else if i.val = 2 then WarningCall env B st e args
  else if i.val = 3 then ErrorCall env B st e args
  else FatalCall env B st e args

/-- `loggerpart1` (logger.go:602). -/
def loggerpart1 : List Nat := [0x7b] ++ gb "\"time\":\""

/-- `loggerpart2` (logger.go:603). -/
def loggerpart2 : List Nat := gb "\",\"level\":\""

/-- `loggerpart3` (logger.go:604). -/
def loggerpart3 : List Nat := gb ",\"message\":\""

/-- `loggerpart4` (logger.go:605). -/
def loggerpart4 : List Nat := [34, 0x7d, 10]

/-- `loggerpart5` (logger.go:606). -/
def loggerpart5 : List Nat := [0x7d, 10]

/-- `loggerEntryStdFormat` (logger.go:610): render one line into the entry
buffer.  The Go field loop iterates over Keys indexing Vals; every entry
reaching it has len Keys ≤ len Vals (enforced in PutLogger), which `zip`
models exactly. -/
def loggerEntryStdFormat (env : LogEnv) (e : LoggerStd) : LoggerStd :=
  let t := if e.Time = 0 then env.now else e.Time
  let buf := e.Buffer ++ loggerpart1 ++ env.fmtTime t e.Timeformat ++ loggerpart2 ++
    loggerlevels.getD e.Level.toNat [] ++ [34] ++
    ((e.Keys.zip e.Vals).flatMap
      (fun kv => [44, 34] ++ kv.1 ++ [34, 58] ++ loggerFormatWriteValue env kv.2))
  if 0 < e.Message.length then
    { e with Buffer := buf ++ loggerpart3 ++ loggerFormatWriteString e.Message ++ loggerpart4 }
  else
    { e with Buffer := buf ++ loggerpart5 }

/-- `LoggerStdConfig` (logger.go:82), restricted to the fields the JSON
data path reads (the writer and rotation are modelled separately). -/
structure LoggerStdConfig where
  Level : Int
  TimeFormat : List Nat
  FileLine : Bool

/-- The JSON backend state: pool contents (sync.Pool modelled as a list),
the bytes written through the writer so far, and the flush count. -/
structure JsonState where
  pool : List LoggerStd
  out : List Nat
  syncs : Nat
deriving DecidableEq

/-- The `Pool.New` constructor installed by `NewLoggerStdDataJSON`
(logger.go:173): Level and Timeformat from the config; Depth is 3, with
0x100 set when FileLine is on. -/
def newPoolEntry (cfg : LoggerStdConfig) : LoggerStd :=
  { Time := 0, Message := [], Keys := [], Vals := [], Buffer := [],
    Timeformat := cfg.TimeFormat, Logger := false, Level := cfg.Level,
    Depth := if cfg.FileLine then 259 else 3 }

/-- `loggerStdDataJSON.GetLogger` (logger.go:233): a pooled entry when one
is available, otherwise a fresh `Pool.New` entry. -/
def jsonGetLogger (cfg : LoggerStdConfig) (st : JsonState) : LoggerStd × JsonState :=
  match st.pool with
  | [] => (newPoolEntry cfg, st)
  | e :: rest => (e, { st with pool := rest })

/-- The diagnostic message appended on a Keys/Vals length mismatch
(logger.go:250). -/
def loggererrMsg : List Nat :=
  gb "LoggerStd.loggerStdDataJSON: The number of field keys and values are not equal"

/-- `loggerStdDataJSON.PutLogger` (logger.go:237): when the entry has a
message or keys, append capture fields per the Depth mode bits, trim excess
keys (appending the diagnostic field via `WithField`, whose receiver here
always has Logger = false), format, write through the writer, clear the
entry; in every case return the entry to the pool. -/
def jsonPutLogger (env : LogEnv) (st : JsonState) (e : LoggerStd) : JsonState :=
  if 0 < e.Message.length ∨ 0 < e.Keys.length then
    let e1 :=
      if e.Depth / 256 = 1 then
        { e with Keys := e.Keys ++ [gb "name", gb "file", gb "line"],
                 Vals := e.Vals ++ [.vStr env.callerName, .vStr env.callerFile,
                                    .vInt env.callerLine] }
      else if e.Depth / 256 = 2 ∨ e.Depth / 256 = 3 then
        { e with Keys := e.Keys ++ [gb "stack"],
                 Vals := e.Vals ++ [.vStrList env.stackList] }
      else e
    let e2 :=
      if e1.Vals.length < e1.Keys.length then
        withFieldData { e1 with Keys := e1.Keys.take e1.Vals.length }
          (gb "loggererr") (.vStr loggererrMsg)
      else e1
    let e3 := loggerEntryStdFormat env e2
    { st with out := st.out ++ e3.Buffer,
              pool := st.pool ++
                [{ e3 with Message := [], Keys := [], Vals := [], Buffer := [] }] }
  else
    { st with pool := st.pool ++ [e] }

/-- The JSON backend (`loggerStdDataJSON`, logger.go:187); `sync` counts
writer flushes. -/
def jsonData (env : LogEnv) (cfg : LoggerStdConfig) : LoggerStdData JsonState :=
  { getLogger := fun st => jsonGetLogger cfg st
    putLogger := fun st e => jsonPutLogger env st e
    sync := fun st => { st with syncs := st.syncs + 1 } }

/-- `NewLoggerStd` over the JSON backend (logger.go:119): acquire an entry
and mark it as a handle. -/
def newLoggerStd (cfg : LoggerStdConfig) (st : JsonState) : LoggerStd × JsonState :=
  let p := jsonGetLogger cfg st
  ({ p.1 with Logger := true }, p.2)

/-- `loggerStdDataInit.GetLogger` (logger.go:269): a zero-value entry. -/
def initZeroEntry : LoggerStd :=
  { Time := 0, Message := [], Keys := [], Vals := [], Buffer := [],
    Timeformat := [], Logger := false, Level := 0, Depth := 0 }

/-- `loggerStdDataInit` (logger.go:264): the buffering backend — finished
entries are stamped with the current time and appended to the list. -/
def initData (env : LogEnv) : LoggerStdData (List LoggerStd) :=
  { getLogger := fun st => (initZeroEntry, st)
    putLogger := fun st e => st ++ [{ e with Time := env.now }]
    sync := fun st => st }

/-- One iteration of the replay loop of `loggerStdDataInit.Unmount`
(logger.go:291): re-attach the buffered time and fields on a clone of the
replay handle and emit at the buffered severity; a severity outside 0..4
matches no case of the Go switch and emits nothing. -/
def replayEntry (env : LogEnv) {σ : Type} (B : LoggerStdData σ) (st : σ)
    (lg : LoggerStd) (e : LoggerStd) : σ :=
  let p := WithField B st lg (gb "time") (.vTime e.Time)
  let q := (e.Keys.zip e.Vals).foldl
    (fun (acc : LoggerStd × σ) kv => WithField B acc.2 acc.1 kv.1 kv.2) p
  if e.Level = 0 then DebugCall env B q.2 q.1 [.vStr e.Message]
  else if e.Level = 1 then InfoCall env B q.2 q.1 [.vStr e.Message]
  else if e.Level = 2 then WarningCall env B q.2 q.1 [.vStr e.Message]
  else if e.Level = 3 then ErrorCall env B q.2 q.1 [.vStr e.Message]
  else if e.Level = 4 then FatalCall env B q.2 q.1 [.vStr e.Message]
  else q.2

/-- `loggerStdDataInit.Unmount` (logger.go:282): derive a replay handle
with caller capture disabled and the handle flag forced, replay every
buffered entry in order, truncate the buffer, flush the real logger. -/
def initUnmount (env : LogEnv) {σ : Type} (B : LoggerStdData σ)
    (dataInit : List LoggerStd) (realLogger : LoggerStd) (st : σ) :
    List LoggerStd × σ :=
  let p := WithField B st realLogger (gb "depth") (.vStr (gb "disable"))
  let q := WithField B p.2 p.1 (gb "logger") (.vBool true)
  let stF := dataInit.foldl (fun acc e => replayEntry env B acc q.1 e) q.2
  ([], B.sync stF)

/-- Spec-side (§6): the output line grammar — one newline-terminated JSON
object: a time member, a level member, one member per attached field in
insertion order, and a final message member (with its leading comma) only
when a message is present. -/
def lineGrammar (ts lvl : List Nat) (fields : List (List Nat × List Nat))
    (msg : Option (List Nat)) : List Nat :=
  [0x7b] ++ gb "\"time\":\"" ++ ts ++ gb "\",\"level\":\"" ++ lvl ++ [34] ++
  (fields.flatMap (fun kv => [44, 34] ++ kv.1 ++ [34, 58] ++ kv.2)) ++
  (match msg with
   | some m => gb ",\"message\":\"" ++ m ++ [34]
   | none => []) ++ [0x7d, 10]

/-- Expected output line for one replayed buffered entry: its own time,
its own severity name, its fields in order, its message. -/
def replayLine (env : LogEnv) (cfg : LoggerStdConfig) (e : LoggerStd) : List Nat :=
  lineGrammar (env.fmtTime e.Time cfg.TimeFormat) (loggerlevels.getD e.Level.toNat [])
    ((e.Keys.zip e.Vals).map (fun kv => (kv.1, loggerFormatWriteValue env kv.2)))
    (some (loggerFormatWriteString e.Message))



/-- A fresh JSON-backend logger handle as `NewLoggerStd` creates it over an
empty pool: the `Pool.New` entry with the handle flag set. -/
def mkHandle (cfg : LoggerStdConfig) : LoggerStd :=
  { newPoolEntry cfg with Logger := true }

/-- A concrete environment used to instantiate theorems on closed inputs. -/
def env0 : LogEnv :=
  { now := 1700000000
    fmtTime := fun t _ => gb "T" ++ intBytes (t : Int)
    callerName := gb "fn"
    callerFile := gb "file.go"
    callerLine := 7
    stackList := [gb "frame1"]
    timeText := fun t => intBytes (t : Int)
    timeJSON := fun t => [34] ++ intBytes (t : Int) ++ [34]
    ctxText := gb "ctx"
    ctxJSON := gb "\"ctx\"" }

/-- A concrete configuration with threshold Debug. -/
def cfg0 : LoggerStdConfig :=
  { Level := 0, TimeFormat := gb "ts", FileLine := false }

/-- A concrete configuration with threshold Warning. -/
def cfgWarn : LoggerStdConfig :=
  { Level := 2, TimeFormat := gb "ts", FileLine := false }

/-- The empty JSON-backend state. -/
def st0 : JsonState := { pool := [], out := [], syncs := 0 }

/-- A concrete entry with empty message and keys but a leftover value. -/
def entC8 : LoggerStd :=
  { Time := 0, Message := [], Keys := [], Vals := [.vInt 1], Buffer := [],
    Timeformat := [], Logger := false, Level := 0, Depth := 3 }

/-- A concrete entry with three keys and two values. -/
def entC6 : LoggerStd :=
  { Time := 5, Message := gb "m", Keys := [gb "a", gb "b", gb "c"],
    Vals := [.vInt 1, .vInt 2], Buffer := [], Timeformat := gb "ts",
    Logger := false, Level := 1, Depth := 3 }

/-- A concrete entry used to instantiate the line-grammar theorem. -/
def entC2 : LoggerStd :=
  { Time := 5, Message := gb "hi", Keys := [gb "k"], Vals := [.vInt 3],
    Buffer := [], Timeformat := gb "ts", Logger := false, Level := 2, Depth := 3 }

/-- A concrete buffered entry (Debug severity) for the replay theorems. -/
def entC3 : LoggerStd :=
  { Time := 9, Message := gb "x", Keys := [gb "k"], Vals := [.vStr (gb "v")],
    Buffer := [], Timeformat := [], Logger := false, Level := 0, Depth := 0 }



/-- Common shape of the five leveled emit bodies: clone a handle, then
either commit (set the severity and format the message) when the carried
threshold is below `bound`, or suppress (clear the fields); finally hand
the entry to the backend.  Each of Debug..Error matches it definitionally
with `bound = rank + 1`; Fatal matches it whenever the threshold is < 5. -/
def genericCall {σ : Type} (env : LogEnv) (B : LoggerStdData σ) (st : σ)
    (e : LoggerStd) (rank bound : Int) (args : List GoVal) : σ :=
  let p := if e.Logger then getEntry B st e else (e, st)
  let e2 := if p.1.Level < bound then
      { p.1 with Level := rank, Message := sprintlnT env args }
    else { p.1 with Keys := [], Vals := [] }
  B.putLogger p.2 e2



/-- Pool hygiene: a pooled entry as the JSON backend leaves it — empty
message, fields and buffer, call-entry flag, the configured time format. -/
def CleanEntry (tf : List Nat) (p : LoggerStd) : Prop :=
  p.Message = [] ∧ p.Keys = [] ∧ p.Vals = [] ∧ p.Buffer = [] ∧
  p.Logger = false ∧ p.Timeformat = tf

/-- The replay handle built by `loggerStdDataInit.Unmount` from a fresh
default logger: capture disabled (Depth 3) and the handle flag forced. -/
def replayHandle (tf : List Nat) : LoggerStd :=
  { Time := 0, Message := [], Keys := [], Vals := [], Buffer := [],
    Timeformat := tf, Logger := true, Level := 0, Depth := 3 }


/-- One observable action of the rotating writer `syncWriterRotate`:
flushing or closing the previous file, invoking a registered callback
with the adopted name, writing a payload, or echoing it to stdout. -/
inductive RotEvent
  | flushed (f : List Nat)
  | closedPrev (f : List Nat)
  | cb (i : Nat) (nm : List Nat)
  | wrote (p : List Nat)
  | stdout (p : List Nat)

/-- State of `syncWriterRotate`: name template, stdout echo flag, size
threshold, next probe index, hour boundary, byte count of the current
file, the current file's name (`none` models a nil file pointer), the
registered callbacks (by index) and the trace of observable actions. -/
structure RotState where
  name : List Nat
  std : Bool
  MaxSize : Nat
  nextindex : Int
  nexttime : Int
  nbytes : Nat
  curFile : Option (List Nat)
  newfn : List Nat
  events : List RotEvent

/-- Runtime inputs of the rotating writer: the clock, the boundary
`getNextHour` would return, and `formatDateName`'s action on the name
template (time formatting is a runtime input, as in `LogEnv`). -/
structure RotEnv where
  now : Int
  nextHour : Int
  dateResolve : List Nat → List Nat

/-- The file system as seen through `os.OpenFile(..., O_CREATE|O_APPEND)`
followed by `Stat().Size()`: an association of names to existing sizes,
an absent name having size 0. -/
def fsSize : List (List Nat × Nat) → List Nat → Nat
  | [], _ => 0
  | (n, s) :: rest, q => if n = q then s else fsSize rest q

/-- `p` is a leading block of `s` (byte lists). -/
def hasPref : List Nat → List Nat → Bool
  | [], _ => true
  | _ :: _, [] => false
  | p :: ps, c :: cs => decide (p = c) && hasPref ps cs

/-- Fuelled core of `strings.Replace(s, pat, rep, -1)` for a non-empty
pattern: replace every occurrence of `pat`, left to right. -/
def goReplaceGo (pat rep : List Nat) : Nat → List Nat → List Nat
  | 0, s => s
  | _ + 1, [] => []
  | fuel + 1, c :: rest =>
    if hasPref pat (c :: rest) = true then
      rep ++ goReplaceGo pat rep fuel ((c :: rest).drop pat.length)
    else c :: goReplaceGo pat rep fuel rest

/-- `strings.Replace(s, pat, rep, -1)`; for non-empty `pat` the fuel
`s.length + 1` is never exhausted. -/
def goReplace (s pat rep : List Nat) : List Nat :=
  goReplaceGo pat rep (s.length + 1) s

/-- The candidate file name probed at index `j`: the date-resolved name
template with every "index" token replaced by the decimal of `j`. -/
def candN (env : RotEnv) (tmpl : List Nat) (j : Int) : List Nat :=
  goReplace (env.dateResolve tmpl) (gb "index") (intBytes j)

/-- The flush/close actions `rotateFile` performs on the previous file;
`Sync` and `Close` are nil-safe no-ops when there is no file yet. -/
def closeEvents : Option (List Nat) → List RotEvent
  | some f => [RotEvent.flushed f, RotEvent.closedPrev f]
  | none => []

/-- Fuelled probing loop of `syncWriterRotate.rotateFile`: open the
candidate at `nextindex`, advance the index, record the candidate's
existing size in `nbytes`; adopt the candidate — flushing and closing the
previous file and invoking every callback with its name — the first time
that size is below `MaxSize`, and keep probing otherwise.  `none` models
the Go loop never finding an admissible candidate. -/
def rotateProbe (env : RotEnv) (fs : List (List Nat × Nat)) :
    Nat → RotState → Option RotState
  | 0, _ => none
  | _fuel + 1, st =>
    let nm := candN env st.name st.nextindex
    let sz := fsSize fs nm
    if sz < st.MaxSize then
      some { st with
        nextindex := st.nextindex + 1,
        nbytes := sz,
        curFile := some nm,
        events := st.events ++ closeEvents st.curFile
          ++ st.newfn.map (fun i => RotEvent.cb i nm) }
    else
      rotateProbe env fs _fuel
        { st with nextindex := st.nextindex + 1, nbytes := sz }

/-- `syncWriterRotate.rotateFile`, the probe fuel set from the file
system's extent. -/
def rotateFile (env : RotEnv) (fs : List (List Nat × Nat))
    (st : RotState) : Option RotState :=
  rotateProbe env fs (fs.length + 1) st

/-- `syncWriterRotate.Write`: size-rotate when the payload would reach the
threshold; at an hour boundary re-resolve the date tokens and restart the
index when the resolved name changed; then write the payload, echo it to
stdout when configured, and add its length to the byte count. -/
def rotWrite (env : RotEnv) (fs : List (List Nat × Nat)) (p : List Nat)
    (st : RotState) : Option RotState :=
  match (if st.MaxSize ≤ st.nbytes + p.length then rotateFile env fs st
         else some st) with
  | none => none
  | some st1 =>
    match (if st1.nexttime < env.now then
             if candN env st1.name (st1.nextindex - 1) ≠ st1.curFile.getD []
             then rotateFile env fs
               { st1 with nexttime := env.nextHour, nextindex := 0 }
             else some { st1 with nexttime := env.nextHour }
           else some st1) with
    | none => none
    | some st2 =>
      some { st2 with
        events := st2.events ++ [RotEvent.wrote p]
          ++ (if st2.std then [RotEvent.stdout p] else []),
        nbytes := st2.nbytes + p.length }

/-- Runtime inputs for the rotating-writer witness: identity date
resolution. -/
def envC7 : RotEnv := { now := 0, nextHour := 100, dateResolve := fun s => s }

/-- A file system where candidate 0 is already full and candidate 1 has
room. -/
def fsC7 : List (List Nat × Nat) := [(gb "log0.txt", 7), (gb "log1.txt", 2)]

/-- A rotating-writer state about to overflow its 5-byte threshold. -/
def stC7 : RotState :=
  { name := gb "logindex.txt", std := false, MaxSize := 5, nextindex := 0,
    nexttime := 10, nbytes := 3, curFile := some (gb "log0.txt"),
    newfn := [0, 1], events := [] }


/-- C4: for each of the five severities, decoding the text produced by
encoding it yields the severity back, and decoding each numeric string
"0".."4" yields the severity with that number. -/
theorem C4_level_text_roundtrip :
    (∀ l : Fin 5, UnmarshalText (MarshalText ((l : Nat) : Int)) = some ((l : Nat) : Int)) ∧
    (∀ d : Fin 5, UnmarshalText [48 + (d : Nat)] = some ((d : Nat) : Int)) := by
  decide

/-- `if_neg`, with the branches implicit, under a local name. -/
theorem ifn {c : Prop} [Decidable c] (hnc : ¬c) {α : Sort _} {t e : α} :
    (if c then t else e) = e := if_neg hnc

/-- `if_pos`, with the branches implicit, under a local name. -/
theorem ifp {c : Prop} [Decidable c] (hc : c) {α : Sort _} {t e : α} :
    (if c then t else e) = t := if_pos hc

theorem upb_eq_43 (b : Nat) : upb b = 43 ↔ b = 43 := by
  unfold upb; split <;> omega

theorem upb_eq_45 (b : Nat) : upb b = 45 ↔ b = 45 := by
  unfold upb; split <;> omega

theorem goIsDigit_upb (b : Nat) : goIsDigit (upb b) = goIsDigit b := by
  unfold upb goIsDigit
  split
  · rw [decide_eq_decide]; omega
  · rfl

theorem map_upb_all_digit (s : List Nat) :
    (s.map upb).all goIsDigit = s.all goIsDigit := by
  induction s with
  | nil => rfl
  | cons b r ih =>
    simp only [List.map_cons, List.all_cons, goIsDigit_upb, ih]

theorem map_upb_of_digits (s : List Nat) (h : s.all goIsDigit = true) :
    s.map upb = s := by
  induction s with
  | nil => rfl
  | cons b r ih =>
    simp only [List.all_cons, Bool.and_eq_true] at h
    have hd : 48 ≤ b ∧ b ≤ 57 := by
      have h1 := h.1; unfold goIsDigit at h1; exact of_decide_eq_true h1
    have hb : upb b = b := by unfold upb; split <;> omega
    simp only [List.map_cons, hb, ih h.2]

theorem goAtoiCore_upper (neg : Bool) (ds : List Nat) :
    goAtoiCore neg (ds.map upb) = goAtoiCore neg ds := by
  unfold goAtoiCore
  by_cases he : ds = []
  · subst he; rfl
  · rw [if_neg (by simpa using he), if_neg he, map_upb_all_digit]
    cases hall : ds.all goIsDigit with
    | false => simp
    | true => simp [map_upb_of_digits ds hall]

theorem goAtoi_asciiToUpper (s : List Nat) : goAtoi (asciiToUpper s) = goAtoi s := by
  cases s with
  | nil => rfl
  | cons b rest =>
    simp only [asciiToUpper, List.map_cons, goAtoi]
    have h43 := upb_eq_43 b
    have h45 := upb_eq_45 b
    by_cases hs : b = 43 ∨ b = 45
    · have hs' : upb b = 43 ∨ upb b = 45 := by
        rcases hs with h | h
        · exact Or.inl (h43.mpr h)
        · exact Or.inr (h45.mpr h)
      rw [if_pos hs', if_pos hs]
      have hdec : decide (upb b = 45) = decide (b = 45) := by
        rw [decide_eq_decide]; exact h45
      rw [hdec, goAtoiCore_upper]
    · have hs' : ¬(upb b = 43 ∨ upb b = 45) := by
        rintro (h | h)
        · exact hs (Or.inl (h43.mp h))
        · exact hs (Or.inr (h45.mp h))
      rw [if_neg hs', if_neg hs]
      have hrw : upb b :: List.map upb rest = (b :: rest).map upb := rfl
      rw [hrw, goAtoiCore_upper]

theorem goAtoiCore_decDigits (p : Prop) [Decidable p] (ds : List Nat) (n : Int)
    (h0 : 0 ≤ n) (h4 : n ≤ 4) :
    goAtoiCore (decide p) ds = some n ↔
      (decDigits ds).map (fun v => if p then -(v : Int) else (v : Int)) = some n := by
  unfold goAtoiCore decDigits
  split_ifs with he hall hneg hcut hcut2 <;>
    simp_all <;> omega

theorem goAtoi_numParse_small (s : List Nat) (n : Int) (h0 : 0 ≤ n) (h4 : n ≤ 4) :
    goAtoi s = some n ↔ numParse s = some n := by
  cases s with
  | nil => simp [goAtoi, numParse]
  | cons b rest =>
    simp only [goAtoi, numParse]
    by_cases hs : b = 43 ∨ b = 45
    · rw [if_pos hs, if_pos hs]
      exact goAtoiCore_decDigits (b = 45) rest n h0 h4
    · rw [if_neg hs, if_neg hs]
      have hb45 : b ≠ 45 := fun h => hs (Or.inr h)
      have hf : (false : Bool) = decide (b = 45) := by simp [hb45]
      rw [hf]
      exact goAtoiCore_decDigits (b = 45) (b :: rest) n h0 h4

/-- C5: `UnmarshalText` succeeds exactly on inputs that uppercase to one of
the five level-name literals or are decimal numerals denoting 0..4; every
other (ASCII) input yields the unrecognized-level error (`none`). -/
theorem C5_unmarshal_accepts_exactly (s : List Nat) (hascii : ∀ b ∈ s, b < 128) :
    (UnmarshalText s).isSome = true ↔
      ((∃ i : Fin 5, asciiToUpper s = levelNameSpec i) ∨
       (∃ n : Int, numParse s = some n ∧ 0 ≤ n ∧ n ≤ 4)) := by
  unfold UnmarshalText
  simp only [DefaultLoggerLevelString, findLevelIdx]
  split_ifs with h1 h2 h3 h4 h5
  · simp only [Option.isSome_some, true_iff]
    exact Or.inl ⟨0, by rw [← h1]; rfl⟩
  · simp only [Option.isSome_some, true_iff]
    exact Or.inl ⟨1, by rw [← h2]; rfl⟩
  · simp only [Option.isSome_some, true_iff]
    exact Or.inl ⟨2, by rw [← h3]; rfl⟩
  · simp only [Option.isSome_some, true_iff]
    exact Or.inl ⟨3, by rw [← h4]; rfl⟩
  · simp only [Option.isSome_some, true_iff]
    exact Or.inl ⟨4, by rw [← h5]; rfl⟩
  · have hname : ¬∃ i : Fin 5, asciiToUpper s = levelNameSpec i := by
      rintro ⟨i, hi⟩
      fin_cases i
      · exact h1 hi.symm
      · exact h2 hi.symm
      · exact h3 hi.symm
      · exact h4 hi.symm
      · exact h5 hi.symm
    rw [goAtoi_asciiToUpper]
    cases hA : goAtoi s with
    | none =>
      dsimp only
      simp only [Option.isSome_none, Bool.false_eq_true, false_iff]
      rintro (h | ⟨n, hn, hn0, hn4⟩)
      · exact hname h
      · rw [(goAtoi_numParse_small s n hn0 hn4).mpr hn] at hA
        exact Option.noConfusion hA
    | some n =>
      dsimp only
      by_cases hr : n < 5 ∧ -1 < n
      · rw [if_pos hr]
        simp only [Option.isSome_some, true_iff]
        exact Or.inr ⟨n, (goAtoi_numParse_small s n (by omega) (by omega)).mp hA, by omega, by omega⟩
      · rw [if_neg hr]
        simp only [Option.isSome_none, Bool.false_eq_true, false_iff]
        rintro (h | ⟨m, hm, hm0, hm4⟩)
        · exact hname h
        · rw [(goAtoi_numParse_small s m hm0 hm4).mpr hm] at hA
          have : m = n := Option.some.inj hA
          omega

/-- Witness for C5 at a concrete input: "warirng" (case-variant of the
misspelled level literal) is accepted. -/
theorem C5_unmarshal_accepts_exactly_witness :
    (UnmarshalText (gb "warirng")).isSome = true ↔
      ((∃ i : Fin 5, asciiToUpper (gb "warirng") = levelNameSpec i) ∨
       (∃ n : Int, numParse (gb "warirng") = some n ∧ 0 ≤ n ∧ n ≤ 4)) :=
  C5_unmarshal_accepts_exactly (gb "warirng") (by decide)

theorem acceptRange3 (b0 b1 : Nat) (h0 : 0xE0 ≤ b0) (h1 : b0 ≤ 0xEF) :
    (acceptLo b0 ≤ b1 ∧ b1 ≤ acceptHi b0) ↔
      ((b0 = 0xE0 ∧ 0xA0 ≤ b1 ∧ b1 ≤ 0xBF) ∨
       (0xE1 ≤ b0 ∧ b0 ≤ 0xEC ∧ isCont b1) ∨
       (b0 = 0xED ∧ 0x80 ≤ b1 ∧ b1 ≤ 0x9F) ∨
       (0xEE ≤ b0 ∧ b0 ≤ 0xEF ∧ isCont b1)) := by
  unfold acceptLo acceptHi isCont
  split_ifs <;> omega

theorem acceptRange4 (b0 b1 : Nat) (h0 : 0xF0 ≤ b0) (h1 : b0 ≤ 0xF4) :
    (acceptLo b0 ≤ b1 ∧ b1 ≤ acceptHi b0) ↔
      ((b0 = 0xF0 ∧ 0x90 ≤ b1 ∧ b1 ≤ 0xBF) ∨
       (0xF1 ≤ b0 ∧ b0 ≤ 0xF3 ∧ isCont b1) ∨
       (b0 = 0xF4 ∧ 0x80 ≤ b1 ∧ b1 ≤ 0x8F)) := by
  unfold acceptLo acceptHi isCont
  split_ifs <;> omega

theorem acceptRange2 (b0 b1 : Nat) (h0 : 0xC2 ≤ b0) (h1 : b0 ≤ 0xDF) :
    (acceptLo b0 ≤ b1 ∧ b1 ≤ acceptHi b0) ↔ isCont b1 := by
  unfold acceptLo acceptHi isCont
  split_ifs <;> omega

theorem decode_validLen_corr (b0 : Nat) (rest : List Nat) (hb : 0x80 ≤ b0) :
    (utf8ValidLen (b0 :: rest) = none ∧ utf8DecodeRune (b0 :: rest) = (0xFFFD, 1)) ∨
    (∃ n, utf8ValidLen (b0 :: rest) = some n ∧
      (utf8DecodeRune (b0 :: rest)).2 = n ∧ 2 ≤ n) := by
  simp only [utf8ValidLen, utf8DecodeRune]
  rcases Nat.lt_or_ge b0 0xC2 with hA | hA
  · -- invalid first byte (0x80..0xC1)
    left
    rw [ifn (by omega), ifn (by omega), ifn (by omega),
        ifn (by omega), ifp (by omega)]
    exact ⟨rfl, rfl⟩
  rcases Nat.lt_or_ge 0xDF b0 with hB | hB
  rotate_left
  · -- two-byte class (0xC2..0xDF)
    have hacc := acceptRange2 b0 (rest.getD 0 0) (by omega) (by omega)
    rcases Nat.lt_or_ge rest.length 1 with hlen | hlen
    · left
      rw [ifn (by omega), ifn (by omega), ifn (by omega),
          ifn (by omega), ifn (by omega), ifp (by omega), ifp (by omega)]
      exact ⟨rfl, rfl⟩
    by_cases hcont : isCont (rest.getD 0 0)
    · right
      refine ⟨2, ?_, ?_, by omega⟩
      · rw [if_pos ⟨by omega, by omega, by omega, hcont⟩]
      · rw [ifn (by omega), ifn (by omega), ifp (by omega),
            ifn (by omega), if_neg (not_not_intro (hacc.mpr hcont))]
    · left
      rw [if_neg (by exact fun h => hcont h.2.2.2), ifn (by omega), ifn (by omega),
          ifn (by omega), ifn (by omega), ifp (by omega),
          ifn (by omega), if_pos (fun h => hcont (hacc.mp h))]
      exact ⟨rfl, rfl⟩
  rcases Nat.lt_or_ge 0xEF b0 with hC | hC
  rotate_left
  · -- three-byte class (0xE0..0xEF)
    have hacc := acceptRange3 b0 (rest.getD 0 0) (by omega) (by omega)
    rcases Nat.lt_or_ge rest.length 2 with hlen | hlen
    · left
      rw [ifn (by omega), ifn (by omega), ifn (by omega),
          ifn (by omega), ifn (by omega), ifn (by omega),
          ifp (by omega), ifp (by omega)]
      exact ⟨rfl, rfl⟩
    by_cases haccP : acceptLo b0 ≤ rest.getD 0 0 ∧ rest.getD 0 0 ≤ acceptHi b0
    · by_cases hcont2 : isCont (rest.getD 1 0)
      · right
        refine ⟨3, ?_, ?_, by omega⟩
        · rw [ifn (by omega), if_pos ⟨by omega, hacc.mp haccP, hcont2⟩]
        · rw [ifn (by omega), ifn (by omega), ifn (by omega),
              ifp (by omega), ifn (by omega), if_neg (not_not_intro haccP),
              if_neg (not_not_intro hcont2)]
      · left
        rw [ifn (by omega), if_neg (by exact fun h => hcont2 h.2.2), ifn (by omega),
            ifn (by omega), ifn (by omega), ifn (by omega),
            ifp (by omega), ifn (by omega), if_neg (not_not_intro haccP),
            if_pos hcont2]
        exact ⟨rfl, rfl⟩
    · left
      rw [ifn (by omega), if_neg (by exact fun h => haccP (hacc.mpr h.2.1)),
          ifn (by omega), ifn (by omega), ifn (by omega), ifn (by omega),
          ifp (by omega), ifn (by omega), if_pos haccP]
      exact ⟨rfl, rfl⟩
  rcases Nat.lt_or_ge 0xF4 b0 with hD | hD
  · -- invalid first byte (0xF5..)
    left
    rw [ifn (by omega), ifn (by omega), ifn (by omega),
        ifn (by omega), ifn (by omega), ifn (by omega),
        ifn (by omega), ifn (by omega)]
    exact ⟨rfl, rfl⟩
  · -- four-byte class (0xF0..0xF4)
    have hacc := acceptRange4 b0 (rest.getD 0 0) (by omega) (by omega)
    rcases Nat.lt_or_ge rest.length 3 with hlen | hlen
    · left
      rw [ifn (by omega), ifn (by omega), ifn (by omega),
          ifn (by omega), ifn (by omega), ifn (by omega),
          ifn (by omega), ifp (by omega), ifp (by omega)]
      exact ⟨rfl, rfl⟩
    by_cases haccP : acceptLo b0 ≤ rest.getD 0 0 ∧ rest.getD 0 0 ≤ acceptHi b0
    · by_cases hcont2 : isCont (rest.getD 1 0)
      · by_cases hcont3 : isCont (rest.getD 2 0)
        · right
          refine ⟨4, ?_, ?_, by omega⟩
          · rw [ifn (by omega), ifn (by omega),
                if_pos ⟨by omega, hacc.mp haccP, hcont2, hcont3⟩]
          · rw [ifn (by omega), ifn (by omega), ifn (by omega),
                ifn (by omega), ifp (by omega), ifn (by omega),
                if_neg (not_not_intro haccP), if_neg (not_not_intro hcont2),
                if_neg (not_not_intro hcont3)]
        · left
          rw [ifn (by omega), ifn (by omega),
              if_neg (by exact fun h => hcont3 h.2.2.2), ifn (by omega),
              ifn (by omega), ifn (by omega), ifn (by omega),
              ifp (by omega), ifn (by omega), if_neg (not_not_intro haccP),
              if_neg (not_not_intro hcont2), if_pos hcont3]
          exact ⟨rfl, rfl⟩
      · left
        rw [ifn (by omega), ifn (by omega),
            if_neg (by exact fun h => hcont2 h.2.2.1), ifn (by omega),
            ifn (by omega), ifn (by omega), ifn (by omega),
            ifp (by omega), ifn (by omega), if_neg (not_not_intro haccP),
            if_pos hcont2]
        exact ⟨rfl, rfl⟩
    · left
      rw [ifn (by omega), ifn (by omega),
          if_neg (by exact fun h => haccP (hacc.mpr h.2.1)), ifn (by omega),
          ifn (by omega), ifn (by omega), ifn (by omega),
          ifp (by omega), ifn (by omega), if_pos haccP]
      exact ⟨rfl, rfl⟩

theorem tryAddRuneSelf_ascii (b : Nat) (hb : b < 0x80) :
    tryAddRuneSelf b = some (
      if b = 92 ∨ b = 34 then [92, b]
      else if b = 10 then [92, 110]
      else if b = 13 then [92, 114]
      else if b = 9 then [92, 116]
      else if b < 0x20 then [92, 117, 48, 48, hexDigit (b / 16), hexDigit (b % 16)]
      else [b]) := by
  unfold tryAddRuneSelf
  split_ifs <;> first | rfl | omega

theorem tryAddRuneSelf_none (b : Nat) (hb : 0x80 ≤ b) : tryAddRuneSelf b = none := by
  unfold tryAddRuneSelf
  rw [if_pos hb]

theorem writeStringGo_eq_escapeSpecGo :
    ∀ fuel s, loggerFormatWriteStringGo fuel s = escapeSpecGo fuel s := by
  intro fuel
  induction fuel with
  | zero => intro s; rfl
  | succ f ih =>
    intro s
    cases s with
    | nil => rfl
    | cons b rest =>
      simp only [loggerFormatWriteStringGo, escapeSpecGo]
      by_cases hb : b < 0x80
      · rw [tryAddRuneSelf_ascii b hb]
        dsimp only
        rw [ih]
        split_ifs <;> first | rfl | omega
      · have hb' : 0x80 ≤ b := by omega
        rw [tryAddRuneSelf_none b hb']
        dsimp only
        rw [ifn (by omega), ifn (by omega), ifn (by omega),
            ifn (by omega), ifn (by omega), ifn (by omega)]
        rcases decode_validLen_corr b rest hb' with ⟨hvn, hd⟩ | ⟨n, hvs, hdsz, hn2⟩
        · rw [hvn, hd]
          dsimp only [tryAddRuneError]
          rw [if_pos ⟨rfl, rfl⟩]
          dsimp only
          rw [ih]
        · rw [hvs]
          have herr : tryAddRuneError (utf8DecodeRune (b :: rest)).1
              (utf8DecodeRune (b :: rest)).2 = none := by
            unfold tryAddRuneError
            rw [if_neg (fun h => by omega)]
          rw [herr]
          dsimp only
          rw [hdsz, ih]

theorem validLen_take_bytes (b0 : Nat) (rest : List Nat) (n : Nat)
    (hv : utf8ValidLen (b0 :: rest) = some n) (c : Nat)
    (hc : c ∈ (b0 :: rest).take n) : 0x80 ≤ c := by
  have hbounds : 0x80 ≤ b0 ∧ n ≤ 4 ∧ ∀ i, i + 2 ≤ n → 0x80 ≤ rest.getD i 0 := by
    simp only [utf8ValidLen, isCont] at hv
    split_ifs at hv with h1 h2 h3
    · obtain rfl : n = 2 := (Option.some.inj hv).symm
      exact ⟨by omega, by omega, fun i hi => by
        have : i = 0 := by omega
        subst this; omega⟩
    · obtain rfl : n = 3 := (Option.some.inj hv).symm
      refine ⟨by omega, by omega, fun i hi => ?_⟩
      have h01 : i = 0 ∨ i = 1 := by omega
      rcases h01 with rfl | rfl <;> omega
    · obtain rfl : n = 4 := (Option.some.inj hv).symm
      refine ⟨by omega, by omega, fun i hi => ?_⟩
      have h012 : i = 0 ∨ i = 1 ∨ i = 2 := by omega
      rcases h012 with rfl | rfl | rfl <;> omega
  obtain ⟨i, hilen, hieq⟩ := List.getElem_of_mem hc
  have hlt : i < n := by
    have := hilen
    rw [List.length_take] at this
    omega
  have hlen2 : i < (b0 :: rest).length := by
    have := hilen
    rw [List.length_take] at this
    omega
  have : (b0 :: rest)[i] = c := by
    rw [← hieq, List.getElem_take]
  cases i with
  | zero =>
    have hbc : b0 = c := by simpa using this
    omega
  | succ j =>
    have hjlen : j < rest.length := by simpa using hlen2
    have hj : rest.getD j 0 = c := by
      rw [List.getD_eq_getElem rest 0 hjlen]
      simpa using this
    have hb2 := hbounds.2.2 j (by omega)
    omega

theorem hexDigit_ge (n : Nat) (h : n ≤ 15) : 48 ≤ hexDigit n := by
  interval_cases n <;> decide

theorem tryAddRuneSelf_bytes (b : Nat) (out : List Nat) (h : tryAddRuneSelf b = some out)
    (c : Nat) (hc : c ∈ out) : 0x20 ≤ c := by
  unfold tryAddRuneSelf at h
  split_ifs at h with h1 h2 h3 h4 h5 h6
  · obtain rfl := Option.some.inj h
    simp only [List.mem_singleton] at hc
    omega
  · obtain rfl := Option.some.inj h
    simp only [List.mem_cons, List.mem_singleton] at hc
    rcases hc with rfl | rfl | hf
    · omega
    · omega
    · cases hf
  · obtain rfl := Option.some.inj h
    simp only [List.mem_cons, List.mem_singleton] at hc
    rcases hc with rfl | rfl | hf
    · omega
    · omega
    · cases hf
  · obtain rfl := Option.some.inj h
    simp only [List.mem_cons, List.mem_singleton] at hc
    rcases hc with rfl | rfl | hf
    · omega
    · omega
    · cases hf
  · obtain rfl := Option.some.inj h
    simp only [List.mem_cons, List.mem_singleton] at hc
    rcases hc with rfl | rfl | hf
    · omega
    · omega
    · cases hf
  · obtain rfl := Option.some.inj h
    have hd1 : 48 ≤ hexDigit (b / 16) := hexDigit_ge _ (by omega)
    have hd2 : 48 ≤ hexDigit (b % 16) := hexDigit_ge _ (by omega)
    simp only [List.mem_cons, List.mem_singleton] at hc
    rcases hc with rfl | rfl | rfl | rfl | rfl | rfl | hf
    · omega
    · omega
    · omega
    · omega
    · omega
    · omega
    · cases hf

theorem writeStringGo_bytes (fuel : Nat) :
    ∀ s c, c ∈ loggerFormatWriteStringGo fuel s → 0x20 ≤ c := by
  induction fuel with
  | zero => intro s c hc; cases hc
  | succ f ih =>
    intro s c hc
    cases s with
    | nil => cases hc
    | cons b rest =>
      simp only [loggerFormatWriteStringGo] at hc
      by_cases hb : b < 0x80
      · rw [tryAddRuneSelf_ascii b hb] at hc
        dsimp only at hc
        rcases List.mem_append.mp hc with h | h
        · exact tryAddRuneSelf_bytes b _ (tryAddRuneSelf_ascii b hb) c h
        · exact ih rest c h
      · have hb' : 0x80 ≤ b := by omega
        rw [tryAddRuneSelf_none b hb'] at hc
        dsimp only at hc
        rcases decode_validLen_corr b rest hb' with ⟨hvn, hd⟩ | ⟨n, hvs, hdsz, hn2⟩
        · rw [hd] at hc
          dsimp only [tryAddRuneError] at hc
          rw [if_pos ⟨rfl, rfl⟩] at hc
          dsimp only at hc
          rcases List.mem_append.mp hc with h | h
          · simp only [List.mem_cons, List.mem_singleton] at h
            rcases h with rfl | rfl | rfl | rfl | rfl | rfl | hf
            · omega
            · omega
            · omega
            · omega
            · omega
            · omega
            · cases hf
          · exact ih rest c h
        · have herr : tryAddRuneError (utf8DecodeRune (b :: rest)).1
              (utf8DecodeRune (b :: rest)).2 = none := by
            unfold tryAddRuneError
            rw [if_neg (fun h => by omega)]
          rw [herr] at hc
          dsimp only at hc
          rcases List.mem_append.mp hc with h | h
          · have h80 : 0x80 ≤ c := by
              apply validLen_take_bytes b rest n hvs c
              rw [hdsz] at h
              exact h
            omega
          · exact ih _ c h


/-- C9: the string writer emits exactly the escaping specified in §4.3 of
the spec: bytes ≥ 0x20 other than backslash and double quote pass through
(including the bytes of well-formed UTF-8 sequences), backslash, quote,
newline, carriage return and tab become their two-character short escapes,
every other byte below 0x20 becomes a `\u00XX` escape, and each byte of an
invalid UTF-8 sequence is replaced by the replacement escape `\ufffd`. -/
theorem C9_write_string_escaping (s : List Nat) :
    loggerFormatWriteString s = escapeSpec s :=
  writeStringGo_eq_escapeSpecGo s.length s

theorem format_eq_lineGrammar (env : LogEnv) (e : LoggerStd) :
    (loggerEntryStdFormat env e).Buffer =
      e.Buffer ++ lineGrammar
        (env.fmtTime (if e.Time = 0 then env.now else e.Time) e.Timeformat)
        (loggerlevels.getD e.Level.toNat [])
        ((e.Keys.zip e.Vals).map (fun kv => (kv.1, loggerFormatWriteValue env kv.2)))
        (if e.Message = [] then none else some (loggerFormatWriteString e.Message)) := by
  unfold loggerEntryStdFormat lineGrammar loggerpart1 loggerpart2 loggerpart3
    loggerpart4 loggerpart5
  by_cases hm : e.Message = []
  · rw [if_neg (by simp [hm]), if_pos hm]
    simp [List.flatMap_map, List.append_assoc, Function.comp]
  · rw [if_pos (by cases hmm : e.Message with
      | nil => exact absurd hmm hm
      | cons a l => simp), if_neg hm]
    simp [List.flatMap_map, List.append_assoc, Function.comp]

theorem loggerlevels_eq_spec (i : Fin 5) :
    loggerlevels.getD (i : Nat) [] = levelNameSpec i := by
  fin_cases i <;> rfl

/-- C2: every output line produced by the JSON backend's formatter is one
newline-terminated JSON object consisting of, in order: a time member with
the formatted timestamp, a level member holding the fixed literal level
name for the entry's severity (inherited WARIRNG misspelling included), one
key/value member per attached field in insertion order, and a final message
member only when the message is non-empty — when it is empty the member and
its preceding comma are absent. -/
theorem C2_line_grammar (env : LogEnv) (e : LoggerStd) (i : Fin 5)
    (hl : e.Level = ((i : Nat) : Int)) (hb : e.Buffer = [])
    (hkv : e.Keys.length = e.Vals.length) :
    (loggerEntryStdFormat env e).Buffer =
      lineGrammar (env.fmtTime (if e.Time = 0 then env.now else e.Time) e.Timeformat)
        (levelNameSpec i)
        ((e.Keys.zip e.Vals).map (fun kv => (kv.1, loggerFormatWriteValue env kv.2)))
        (if e.Message = [] then none else some (loggerFormatWriteString e.Message)) := by
  have hname : loggerlevels.getD e.Level.toNat [] = levelNameSpec i := by
    rw [hl]
    simpa using loggerlevels_eq_spec i
  rw [format_eq_lineGrammar, hb, hname]
  simp

/-- Witness for C2 at a concrete entry (severity Warning, one field, a
non-empty message). -/
theorem C2_line_grammar_witness :
    (loggerEntryStdFormat env0 entC2).Buffer =
      lineGrammar (env0.fmtTime (if entC2.Time = 0 then env0.now else entC2.Time)
          entC2.Timeformat)
        (levelNameSpec 2)
        ((entC2.Keys.zip entC2.Vals).map
          (fun kv => (kv.1, loggerFormatWriteValue env0 kv.2)))
        (if entC2.Message = [] then none
         else some (loggerFormatWriteString entC2.Message)) :=
  C2_line_grammar env0 entC2 2 rfl rfl rfl

/-- C6: an entry reaching the JSON finalize step with more keys than values
has the excess keys trimmed to the number of values and one diagnostic
field (key "loggererr") appended, and the emission completes without
failing: the written line holds exactly the first len(Vals) key/value pairs
plus the diagnostic member, and the entry is still returned to the pool. -/
theorem C6_key_value_mismatch (env : LogEnv) (st : JsonState) (e : LoggerStd)
    (hkv : e.Vals.length < e.Keys.length)
    (hd : 0 ≤ e.Depth ∧ e.Depth < 256) (hb : e.Buffer = []) :
    (jsonPutLogger env st e).out =
      st.out ++ lineGrammar
        (env.fmtTime (if e.Time = 0 then env.now else e.Time) e.Timeformat)
        (loggerlevels.getD e.Level.toNat [])
        (((e.Keys.take e.Vals.length).zip e.Vals).map
            (fun kv => (kv.1, loggerFormatWriteValue env kv.2)) ++
          [(gb "loggererr", loggerFormatWriteValue env (.vStr loggererrMsg))])
        (if e.Message = [] then none else some (loggerFormatWriteString e.Message)) ∧
    ∃ e', (jsonPutLogger env st e).pool = st.pool ++ [e'] := by
  unfold jsonPutLogger
  rw [if_pos (Or.inr (by omega))]
  rw [ifn (by omega), if_neg (by rintro (h | h) <;> omega)]
  dsimp only
  rw [if_pos hkv]
  have hwf : withFieldData { e with Keys := e.Keys.take e.Vals.length }
      (gb "loggererr") (.vStr loggererrMsg) =
      { e with Keys := e.Keys.take e.Vals.length ++ [gb "loggererr"],
               Vals := e.Vals ++ [.vStr loggererrMsg] } := by
    unfold withFieldData
    rw [if_neg (by decide), if_neg (by decide), if_neg (by decide), if_neg (by decide)]
  rw [hwf]
  constructor
  · rw [format_eq_lineGrammar]
    dsimp only
    rw [hb]
    rw [List.zip_append (by rw [List.length_take]; omega)]
    simp
  · exact ⟨_, rfl⟩

/-- Witness for C6: three keys, two values; the output line is the first
two pairs plus the diagnostic member. -/
theorem C6_key_value_mismatch_witness :
    (jsonPutLogger env0 st0 entC6).out =
      st0.out ++ lineGrammar
        (env0.fmtTime (if entC6.Time = 0 then env0.now else entC6.Time) entC6.Timeformat)
        (loggerlevels.getD entC6.Level.toNat [])
        (((entC6.Keys.take entC6.Vals.length).zip entC6.Vals).map
            (fun kv => (kv.1, loggerFormatWriteValue env0 kv.2)) ++
          [(gb "loggererr", loggerFormatWriteValue env0 (.vStr loggererrMsg))])
        (if entC6.Message = [] then none
         else some (loggerFormatWriteString entC6.Message)) ∧
    ∃ e', (jsonPutLogger env0 st0 entC6).pool = st0.pool ++ [e'] :=
  C6_key_value_mismatch env0 st0 entC6 (by decide) (by decide) rfl

/-- C10: a leveled emit call on the JSON backend that is enabled by the
threshold but whose formatted message is empty and which carries no
attached fields writes nothing through the writer: the finalize step
formats and writes only when the message is non-empty or a field key is
present, and otherwise returns the entry to the pool with the writer
untouched. -/
theorem C10_empty_message_no_output (env : LogEnv) (cfg : LoggerStdConfig)
    (st : JsonState) (h : LoggerStd) (args : List GoVal)
    (hlog : h.Logger = true) (hkeys : h.Keys = [])
    (hen : h.Level < 1) (hmsg : sprintlnT env args = [])
    (hpool : ∀ e ∈ st.pool, e.Message = [] ∧ e.Keys = []) :
    (DebugCall env (jsonData env cfg) st h args).out = st.out ∧
    (DebugCall env (jsonData env cfg) st h args).syncs = st.syncs ∧
    ∃ e', (DebugCall env (jsonData env cfg) st h args).pool =
      st.pool.drop 1 ++ [e'] ∧ e'.Message = [] ∧ e'.Keys = [] := by
  cases hp : st.pool with
  | nil =>
    have hget : jsonGetLogger cfg st = (newPoolEntry cfg, st) := by
      unfold jsonGetLogger; rw [hp]
    unfold DebugCall
    rw [if_pos hlog]
    unfold getEntry jsonData
    dsimp only
    rw [hget]
    dsimp only
    rw [if_neg (show ¬h.Keys.length ≠ 0 by rw [hkeys]; simp)]
    dsimp only [newPoolEntry]
    rw [if_pos hen]
    unfold jsonPutLogger
    dsimp only
    rw [hmsg]
    rw [if_neg (by simp)]
    exact ⟨rfl, rfl,
      ⟨{ Time := 0, Message := [], Keys := [], Vals := [], Buffer := [],
         Timeformat := cfg.TimeFormat, Logger := false, Level := 0, Depth := h.Depth },
       by rw [hp]; rfl, rfl, rfl⟩⟩
  | cons e rest =>
    have hget : jsonGetLogger cfg st = (e, { st with pool := rest }) := by
      unfold jsonGetLogger; rw [hp]
    obtain ⟨hm, hk⟩ := hpool e (hp ▸ List.mem_cons_self e rest)
    unfold DebugCall
    rw [if_pos hlog]
    unfold getEntry jsonData
    dsimp only
    rw [hget]
    dsimp only
    rw [if_neg (show ¬h.Keys.length ≠ 0 by rw [hkeys]; simp)]
    dsimp only
    rw [if_pos hen]
    unfold jsonPutLogger
    dsimp only
    rw [hmsg, hk]
    rw [if_neg (by simp)]
    exact ⟨rfl, rfl,
      ⟨{ Time := e.Time, Message := [], Keys := [], Vals := e.Vals, Buffer := e.Buffer,
         Timeformat := e.Timeformat, Logger := e.Logger, Level := 0, Depth := h.Depth },
       by rfl, rfl, rfl⟩⟩

/-- Witness for C10: an enabled `Debug()` call with no arguments on a fresh
Debug-threshold handle leaves the writer untouched. -/
theorem C10_empty_message_no_output_witness :
    (DebugCall env0 (jsonData env0 cfg0) st0 (mkHandle cfg0) []).out = st0.out ∧
    (DebugCall env0 (jsonData env0 cfg0) st0 (mkHandle cfg0) []).syncs = st0.syncs ∧
    ∃ e', (DebugCall env0 (jsonData env0 cfg0) st0 (mkHandle cfg0) []).pool =
      st0.pool.drop 1 ++ [e'] ∧ e'.Message = [] ∧ e'.Keys = [] :=
  C10_empty_message_no_output env0 cfg0 st0 (mkHandle cfg0) [] rfl rfl
    (by decide) rfl (by simp [st0])

/-- C8 counterexample: an entry that reaches `PutLogger` with empty message
and empty keys but a leftover value (reachable via
`WithFields(nil, vals)` followed by `Debug()`) is returned to the pool
as-is — its `Vals` is NOT truncated to zero length, refuting the claim
that every entry returned to the pool has Buffer/Keys/Vals truncated. -/
theorem C8_counterexample :
    (jsonPutLogger env0 st0 entC8).pool = [entC8] ∧ entC8.Vals ≠ [] := by
  constructor
  · rfl
  · decide

/-- C8 amended: whenever the JSON backend returns to its pool an entry that
reached the finalize step with a non-empty message or at least one key
(i.e. a line was written), that entry's Buffer, Keys and Vals have been
truncated to zero length and its Message is empty; an entry arriving with
empty message and empty keys is returned as-is, retaining leftover Vals. -/
theorem C8_pooled_entry_cleared (env : LogEnv) (st : JsonState) (e : LoggerStd)
    (hw : 0 < e.Message.length ∨ 0 < e.Keys.length) :
    ∃ e', (jsonPutLogger env st e).pool = st.pool ++ [e'] ∧
      e'.Message = [] ∧ e'.Keys = [] ∧ e'.Vals = [] ∧ e'.Buffer = [] := by
  unfold jsonPutLogger
  rw [if_pos hw]
  exact ⟨_, rfl, rfl, rfl, rfl, rfl⟩

/-- Witness for the amended C8 at a concrete written entry. -/
theorem C8_pooled_entry_cleared_witness :
    ∃ e', (jsonPutLogger env0 st0 entC2).pool = st0.pool ++ [e'] ∧
      e'.Message = [] ∧ e'.Keys = [] ∧ e'.Vals = [] ∧ e'.Buffer = [] :=
  C8_pooled_entry_cleared env0 st0 entC2 (by decide)

theorem sprintln_single (env : LogEnv) (m : List Nat) :
    sprintlnT env [.vStr m] = m := by
  simp [sprintlnT, govText, List.intercalate]

theorem getEntry_level {σ : Type} (B : LoggerStdData σ) (st : σ) (e : LoggerStd) :
    (getEntry B st e).1.Level = e.Level := by
  unfold getEntry
  dsimp only
  split <;> rfl

theorem fatalCall_eq_generic {σ : Type} (env : LogEnv) (B : LoggerStdData σ)
    (st : σ) (e : LoggerStd) (args : List GoVal) (h5 : e.Level < 5) :
    FatalCall env B st e args = genericCall env B st e 4 5 args := by
  unfold FatalCall genericCall
  by_cases hl : e.Logger
  · rw [if_pos hl]
    dsimp only
    rw [if_pos (show (getEntry B st e).1.Level < 5 by rw [getEntry_level]; exact h5)]
  · rw [if_neg hl]
    dsimp only
    rw [if_pos (show e.Level < 5 from h5)]

theorem emitCall_eq_generic {σ : Type} (env : LogEnv) (B : LoggerStdData σ)
    (st : σ) (e : LoggerStd) (S : Fin 5) (args : List GoVal) (h5 : e.Level < 5) :
    emitCall env B st e S args =
      genericCall env B st e ((S : Nat) : Int) (((S : Nat) : Int) + 1) args := by
  fin_cases S
  · rfl
  · rfl
  · rfl
  · rfl
  · exact fatalCall_eq_generic env B st e args h5

theorem nl_not_mem_writeString (s : List Nat) :
    (10 : Nat) ∉ loggerFormatWriteString s := fun hmem => by
  have := writeStringGo_bytes s.length s 10 hmem
  omega

theorem nl_not_mem_levelName (i : Fin 5) : (10 : Nat) ∉ levelNameSpec i := by
  fin_cases i <;> decide

theorem count_nl_lineGrammar (ts lvl msg : List Nat)
    (hts : (10 : Nat) ∉ ts) (hlvl : (10 : Nat) ∉ lvl) (hmsg : (10 : Nat) ∉ msg) :
    (lineGrammar ts lvl [] (some msg)).count 10 = 1 := by
  unfold lineGrammar
  dsimp only
  simp only [List.count_append, List.count_eq_zero.mpr hts,
    List.count_eq_zero.mpr hlvl, List.count_eq_zero.mpr hmsg]
  decide

theorem genericCall_fresh_suppressed (env : LogEnv) (cfg : LoggerStdConfig)
    (out0 : List Nat) (sy : Nat) (rank bound : Int) (args : List GoVal)
    (hsup : ¬(cfg.Level < bound)) :
    (genericCall env (jsonData env cfg) { pool := [], out := out0, syncs := sy }
      (mkHandle cfg) rank bound args).out = out0 := by
  unfold genericCall
  rw [if_pos (show (mkHandle cfg).Logger = true from rfl)]
  unfold getEntry jsonData jsonGetLogger mkHandle newPoolEntry
  dsimp only
  rw [if_neg (show ¬(([] : List (List Nat)).length ≠ 0) by simp)]
  dsimp only
  rw [if_neg hsup]
  unfold jsonPutLogger
  dsimp only
  rw [if_neg (by simp)]

theorem genericCall_fresh_enabled (env : LogEnv) (cfg : LoggerStdConfig)
    (out0 : List Nat) (sy : Nat) (rank bound : Int) (m : List Nat)
    (hen : cfg.Level < bound) (hfl : cfg.FileLine = false) (hm : m ≠ []) :
    (genericCall env (jsonData env cfg) { pool := [], out := out0, syncs := sy }
      (mkHandle cfg) rank bound [.vStr m]).out =
      out0 ++ lineGrammar (env.fmtTime env.now cfg.TimeFormat)
        (loggerlevels.getD rank.toNat []) [] (some (loggerFormatWriteString m)) := by
  unfold genericCall
  rw [if_pos (show (mkHandle cfg).Logger = true from rfl)]
  unfold getEntry jsonData jsonGetLogger mkHandle newPoolEntry
  dsimp only
  simp only [hfl, Bool.false_eq_true, if_false]
  rw [if_neg (show ¬(([] : List (List Nat)).length ≠ 0) by simp)]
  dsimp only
  rw [if_pos hen]
  rw [sprintln_single]
  unfold jsonPutLogger
  dsimp only
  rw [if_pos (Or.inl (show 0 < m.length by
    cases hmc : m with
    | nil => exact absurd hmc hm
    | cons a l => simp))]
  rw [if_neg (show ¬((3 : Int) / 256 = 1) by decide),
      if_neg (show ¬((3 : Int) / 256 = 2 ∨ (3 : Int) / 256 = 3) by decide)]
  dsimp only
  rw [if_neg (show ¬(([] : List GoVal).length < ([] : List (List Nat)).length) by simp)]
  rw [format_eq_lineGrammar]
  dsimp only
  rw [if_pos (show (0 : Nat) = 0 from rfl), if_neg hm]
  simp

/-- C1 counterexample: with configured threshold Debug (T = 0), the enabled
call `Debug()` (severity S = 0, so not S < T) produces no output line at
all, refuting the claim's "otherwise exactly one line is written". -/
theorem C1_counterexample :
    (emitCall env0 (jsonData env0 cfg0) st0 (mkHandle cfg0) 0 []).out = st0.out ∧
      ¬((0 : Fin 5) < (0 : Fin 5)) :=
  ⟨rfl, by decide⟩

/-- C1 amended: for every configured minimum level T carried on a fresh
JSON-backend logger handle (caller-location capture off) and every leveled
emit call of severity S whose formatted message is non-empty: the call
produces no output iff S < T; otherwise exactly one newline-terminated
line is written through the writer and its level member is S's level name.
(Unamended, the claim fails for an enabled call whose message is empty and
which carries no fields — see the counterexample.) -/
theorem C1_threshold_gating (env : LogEnv) (cfg : LoggerStdConfig) (out0 : List Nat)
    (sy : Nat) (T S : Fin 5) (m : List Nat)
    (hcfg : cfg.Level = ((T : Nat) : Int)) (hfl : cfg.FileLine = false) (hm : m ≠ [])
    (hts : (10 : Nat) ∉ env.fmtTime env.now cfg.TimeFormat) :
    ((S : Nat) < (T : Nat) →
      (emitCall env (jsonData env cfg) { pool := [], out := out0, syncs := sy }
        (mkHandle cfg) S [.vStr m]).out = out0) ∧
    ((T : Nat) ≤ (S : Nat) →
      (emitCall env (jsonData env cfg) { pool := [], out := out0, syncs := sy }
        (mkHandle cfg) S [.vStr m]).out =
        out0 ++ lineGrammar (env.fmtTime env.now cfg.TimeFormat) (levelNameSpec S) []
          (some (loggerFormatWriteString m)) ∧
      (lineGrammar (env.fmtTime env.now cfg.TimeFormat) (levelNameSpec S) []
          (some (loggerFormatWriteString m))).count 10 = 1) := by
  have hlt : (mkHandle cfg).Level < 5 := by
    show cfg.Level < 5
    rw [hcfg]
    have := T.isLt
    omega
  rw [emitCall_eq_generic env _ _ _ S _ hlt]
  constructor
  · intro hST
    exact genericCall_fresh_suppressed env cfg out0 sy _ _ _
      (by rw [hcfg]; have := S.isLt; omega)
  · intro hTS
    have hname : loggerlevels.getD (((S : Nat) : Int)).toNat [] = levelNameSpec S := by
      rw [Int.toNat_natCast]
      exact loggerlevels_eq_spec S
    refine ⟨?_, ?_⟩
    · rw [genericCall_fresh_enabled env cfg out0 sy _ _ m
        (by rw [hcfg]; omega) hfl hm, hname]
    · exact count_nl_lineGrammar _ _ _ hts (nl_not_mem_levelName S)
        (nl_not_mem_writeString m)

/-- Witness for the amended C1: threshold Warning, call Warning("y") —
exactly one line with the (misspelled) warning level name. -/
theorem C1_threshold_gating_witness :
    (((2 : Fin 5) : Nat) < ((2 : Fin 5) : Nat) →
      (emitCall env0 (jsonData env0 cfgWarn) { pool := [], out := [], syncs := 0 }
        (mkHandle cfgWarn) 2 [.vStr (gb "y")]).out = []) ∧
    (((2 : Fin 5) : Nat) ≤ ((2 : Fin 5) : Nat) →
      (emitCall env0 (jsonData env0 cfgWarn) { pool := [], out := [], syncs := 0 }
        (mkHandle cfgWarn) 2 [.vStr (gb "y")]).out =
        [] ++ lineGrammar (env0.fmtTime env0.now cfgWarn.TimeFormat) (levelNameSpec 2) []
          (some (loggerFormatWriteString (gb "y"))) ∧
      (lineGrammar (env0.fmtTime env0.now cfgWarn.TimeFormat) (levelNameSpec 2) []
          (some (loggerFormatWriteString (gb "y")))).count 10 = 1) :=
  C1_threshold_gating env0 cfgWarn [] 0 2 2 (gb "y") rfl rfl (by decide) (by decide)

theorem loggerEntryStdFormat_proj (env : LogEnv) (e : LoggerStd) :
    (loggerEntryStdFormat env e).Time = e.Time ∧
    (loggerEntryStdFormat env e).Message = e.Message ∧
    (loggerEntryStdFormat env e).Keys = e.Keys ∧
    (loggerEntryStdFormat env e).Vals = e.Vals ∧
    (loggerEntryStdFormat env e).Timeformat = e.Timeformat ∧
    (loggerEntryStdFormat env e).Logger = e.Logger ∧
    (loggerEntryStdFormat env e).Level = e.Level ∧
    (loggerEntryStdFormat env e).Depth = e.Depth := by
  unfold loggerEntryStdFormat
  dsimp only
  split <;> exact ⟨rfl, rfl, rfl, rfl, rfl, rfl, rfl, rfl⟩

theorem withFieldB_fold_ordinary {σ : Type} (B : LoggerStdData σ) :
    ∀ (kvs : List (List Nat × GoVal)) (en : LoggerStd) (st : σ),
      en.Logger = false →
      (∀ kv ∈ kvs, kv.1 ≠ gb "context" ∧ kv.1 ≠ gb "depth" ∧
        kv.1 ≠ gb "time" ∧ kv.1 ≠ gb "logger") →
      kvs.foldl (fun (acc : LoggerStd × σ) kv => WithField B acc.2 acc.1 kv.1 kv.2)
          (en, st) =
        ({ en with Keys := en.Keys ++ kvs.map Prod.fst,
                   Vals := en.Vals ++ kvs.map Prod.snd }, st) := by
  intro kvs
  induction kvs with
  | nil => intro en st _ _; simp
  | cons kv rest ih =>
    intro en st hlog hord
    rw [List.foldl_cons]
    have h1 : WithField B st en kv.1 kv.2 =
        ({ en with Keys := en.Keys ++ [kv.1], Vals := en.Vals ++ [kv.2] }, st) := by
      unfold WithField
      rw [if_neg (by rw [hlog]; simp)]
      dsimp only
      obtain ⟨h1, h2, h3, h4⟩ := hord kv (List.mem_cons_self _ _)
      unfold withFieldData
      rw [if_neg h1, if_neg h2, if_neg h3, if_neg h4]
    rw [h1, ih _ _ (by exact hlog) (fun kv2 h => hord kv2 (List.mem_cons_of_mem _ h))]
    simp [List.append_assoc]

theorem call_enabled_nonhandle {σ : Type} (env : LogEnv) (B : LoggerStdData σ)
    (st : σ) (en : LoggerStd) (rank bound : Int) (args : List GoVal)
    (hlog : en.Logger = false) (hen : en.Level < bound) :
    genericCall env B st en rank bound args =
      B.putLogger st { en with Level := rank, Message := sprintlnT env args } := by
  unfold genericCall
  rw [if_neg (by rw [hlog]; simp)]
  dsimp only
  rw [if_pos hen]

theorem jsonPut_write (env : LogEnv) (st : JsonState) (e : LoggerStd)
    (hM : e.Message ≠ []) (hd : e.Depth = 3) (hkv : e.Keys.length = e.Vals.length)
    (hb : e.Buffer = []) (ht : e.Time ≠ 0) :
    jsonPutLogger env st e = { st with
      out := st.out ++ lineGrammar (env.fmtTime e.Time e.Timeformat)
        (loggerlevels.getD e.Level.toNat [])
        ((e.Keys.zip e.Vals).map (fun kv => (kv.1, loggerFormatWriteValue env kv.2)))
        (some (loggerFormatWriteString e.Message)),
      pool := st.pool ++
        [{ e with Message := [], Keys := [], Vals := [], Buffer := [] }] } := by
  unfold jsonPutLogger
  rw [if_pos (Or.inl (show 0 < e.Message.length by
    cases hmc : e.Message with
    | nil => exact absurd hmc hM
    | cons a l => simp))]
  rw [if_neg (show ¬(e.Depth / 256 = 1) by rw [hd]; decide),
      if_neg (show ¬(e.Depth / 256 = 2 ∨ e.Depth / 256 = 3) by rw [hd]; decide)]
  dsimp only
  rw [if_neg (show ¬(e.Vals.length < e.Keys.length) by omega)]
  rw [format_eq_lineGrammar]
  rw [hb, if_neg ht, if_neg hM]
  obtain ⟨h1, h2, h3, h4, h5, h6, h7, h8⟩ := loggerEntryStdFormat_proj env e
  simp [h1, h2, h3, h4, h5, h6, h7, h8]

theorem debugCall_eq_generic {σ : Type} (env : LogEnv) (B : LoggerStdData σ)
    (st : σ) (e : LoggerStd) (args : List GoVal) :
    DebugCall env B st e args = genericCall env B st e 0 1 args := rfl

theorem infoCall_eq_generic {σ : Type} (env : LogEnv) (B : LoggerStdData σ)
    (st : σ) (e : LoggerStd) (args : List GoVal) :
    InfoCall env B st e args = genericCall env B st e 1 2 args := rfl

theorem warningCall_eq_generic {σ : Type} (env : LogEnv) (B : LoggerStdData σ)
    (st : σ) (e : LoggerStd) (args : List GoVal) :
    WarningCall env B st e args = genericCall env B st e 2 3 args := rfl

theorem errorCall_eq_generic {σ : Type} (env : LogEnv) (B : LoggerStdData σ)
    (st : σ) (e : LoggerStd) (args : List GoVal) :
    ErrorCall env B st e args = genericCall env B st e 3 4 args := rfl

theorem getEntry_replayHandle (env : LogEnv) (tf : List Nat) (st : JsonState)
    (hpool : ∀ p ∈ st.pool, CleanEntry tf p) :
    ∃ τ, getEntry (jsonData env ⟨0, tf, false⟩) st (replayHandle tf) =
      ({ Time := τ, Message := [], Keys := [], Vals := [], Buffer := [],
         Timeformat := tf, Logger := false, Level := 0, Depth := 3 },
       { pool := st.pool.drop 1, out := st.out, syncs := st.syncs }) := by
  obtain ⟨sp, so, ss⟩ := st
  unfold getEntry jsonData jsonGetLogger
  dsimp only
  cases sp with
  | nil =>
    exact ⟨0, rfl⟩
  | cons q rest =>
    obtain ⟨hm, hk, hv, hb, hl, htf⟩ := hpool q (List.mem_cons_self _ _)
    refine ⟨q.Time, ?_⟩
    rw [if_neg (show ¬((replayHandle tf).Keys.length ≠ 0) by simp [replayHandle])]
    dsimp only [replayHandle]
    obtain ⟨qt, qm, qk, qv, qb, qtf, qlog, qlv, qd⟩ := q
    simp_all

theorem replay_emit_core (env : LogEnv) (tf : List Nat) (stD : JsonState)
    (e : LoggerStd) (rank : Int) (hrank : e.Level = rank)
    (hT : e.Time ≠ 0) (hM : e.Message ≠ []) (hKV : e.Keys.length = e.Vals.length)
    (hpoolD : ∀ p ∈ stD.pool, CleanEntry tf p) :
    (jsonPutLogger env stD
        { Time := e.Time, Message := sprintlnT env [.vStr e.Message], Keys := e.Keys,
          Vals := e.Vals, Buffer := [], Timeformat := tf, Logger := false,
          Level := rank, Depth := 3 }).out =
      stD.out ++ replayLine env ⟨0, tf, false⟩ e ∧
    (jsonPutLogger env stD
        { Time := e.Time, Message := sprintlnT env [.vStr e.Message], Keys := e.Keys,
          Vals := e.Vals, Buffer := [], Timeformat := tf, Logger := false,
          Level := rank, Depth := 3 }).syncs = stD.syncs ∧
    ∀ p ∈ (jsonPutLogger env stD
        { Time := e.Time, Message := sprintlnT env [.vStr e.Message], Keys := e.Keys,
          Vals := e.Vals, Buffer := [], Timeformat := tf, Logger := false,
          Level := rank, Depth := 3 }).pool, CleanEntry tf p := by
  rw [sprintln_single]
  rw [jsonPut_write env stD _ (by exact hM) rfl (by exact hKV) rfl (by exact hT)]
  refine ⟨?_, rfl, ?_⟩
  · dsimp only
    unfold replayLine
    dsimp only
    rw [hrank]
  · intro p hp
    dsimp only at hp
    rcases List.mem_append.mp hp with h | h
    · exact hpoolD p h
    · rcases List.mem_singleton.mp h with rfl
      exact ⟨rfl, rfl, rfl, rfl, rfl, rfl⟩

theorem replayEntry_step (env : LogEnv) (tf : List Nat) (st : JsonState) (e : LoggerStd)
    (hpool : ∀ p ∈ st.pool, CleanEntry tf p)
    (hT : e.Time ≠ 0) (hM : e.Message ≠ []) (hKV : e.Keys.length = e.Vals.length)
    (hL0 : 0 ≤ e.Level) (hL4 : e.Level ≤ 4)
    (hkeys : ∀ k ∈ e.Keys, k ≠ gb "context" ∧ k ≠ gb "depth" ∧
      k ≠ gb "time" ∧ k ≠ gb "logger") :
    (replayEntry env (jsonData env ⟨0, tf, false⟩) st (replayHandle tf) e).out =
        st.out ++ replayLine env ⟨0, tf, false⟩ e ∧
    (replayEntry env (jsonData env ⟨0, tf, false⟩) st (replayHandle tf) e).syncs =
        st.syncs ∧
    (∀ p ∈ (replayEntry env (jsonData env ⟨0, tf, false⟩) st (replayHandle tf) e).pool,
      CleanEntry tf p) := by
  obtain ⟨τ, hclone⟩ := getEntry_replayHandle env tf st hpool
  have hpoolD : ∀ p ∈ ({ pool := st.pool.drop 1, out := st.out, syncs := st.syncs } :
      JsonState).pool, CleanEntry tf p := by
    intro p hp
    exact hpool p (List.mem_of_mem_drop hp)
  unfold replayEntry
  have hstep1 : WithField (jsonData env ⟨0, tf, false⟩) st (replayHandle tf)
      (gb "time") (.vTime e.Time) =
      ({ Time := e.Time, Message := [], Keys := [], Vals := [], Buffer := [],
         Timeformat := tf, Logger := false, Level := 0, Depth := 3 },
       { pool := st.pool.drop 1, out := st.out, syncs := st.syncs }) := by
    unfold WithField
    rw [if_pos (show (replayHandle tf).Logger = true from rfl), hclone]
    dsimp only
    unfold withFieldData
    rw [if_neg (by decide), if_neg (by decide), if_pos rfl]
  rw [hstep1]
  dsimp only
  rw [withFieldB_fold_ordinary _ _ _ _ rfl (by
    intro kv hkv2
    have hmem : kv.1 ∈ e.Keys := (List.of_mem_zip hkv2).1
    exact hkeys kv.1 hmem)]
  dsimp only
  rw [List.map_fst_zip _ _ (by omega), List.map_snd_zip _ _ (by omega)]
  have h5 : e.Level = 0 ∨ e.Level = 1 ∨ e.Level = 2 ∨ e.Level = 3 ∨ e.Level = 4 := by
    omega
  rcases h5 with h | h | h | h | h
  · rw [if_pos h, debugCall_eq_generic,
      call_enabled_nonhandle _ _ _ _ _ _ _ rfl (by dsimp only; decide)]
    exact replay_emit_core env tf _ e 0 h hT hM hKV hpoolD
  · rw [ifn (by omega), if_pos h, infoCall_eq_generic,
      call_enabled_nonhandle _ _ _ _ _ _ _ rfl (by dsimp only; decide)]
    exact replay_emit_core env tf _ e 1 h hT hM hKV hpoolD
  · rw [ifn (by omega), ifn (by omega), if_pos h, warningCall_eq_generic,
      call_enabled_nonhandle _ _ _ _ _ _ _ rfl (by dsimp only; decide)]
    exact replay_emit_core env tf _ e 2 h hT hM hKV hpoolD
  · rw [ifn (by omega), ifn (by omega), ifn (by omega), if_pos h,
      errorCall_eq_generic,
      call_enabled_nonhandle _ _ _ _ _ _ _ rfl (by dsimp only; decide)]
    exact replay_emit_core env tf _ e 3 h hT hM hKV hpoolD
  · rw [ifn (by omega), ifn (by omega), ifn (by omega), ifn (by omega),
      if_pos h, fatalCall_eq_generic _ _ _ _ _ (by dsimp only; omega),
      call_enabled_nonhandle _ _ _ _ _ _ _ rfl (by dsimp only; decide)]
    exact replay_emit_core env tf _ e 4 h hT hM hKV hpoolD

theorem replay_fold (env : LogEnv) (tf : List Nat) :
    ∀ (dataL : List LoggerStd) (st : JsonState),
      (∀ p ∈ st.pool, CleanEntry tf p) →
      (∀ e ∈ dataL, e.Time ≠ 0 ∧ e.Message ≠ [] ∧ e.Keys.length = e.Vals.length ∧
        0 ≤ e.Level ∧ e.Level ≤ 4 ∧
        (∀ k ∈ e.Keys, k ≠ gb "context" ∧ k ≠ gb "depth" ∧
          k ≠ gb "time" ∧ k ≠ gb "logger")) →
      (dataL.foldl (fun acc e => replayEntry env (jsonData env ⟨0, tf, false⟩) acc
          (replayHandle tf) e) st).out =
        st.out ++ (dataL.map (replayLine env ⟨0, tf, false⟩)).flatten ∧
      (dataL.foldl (fun acc e => replayEntry env (jsonData env ⟨0, tf, false⟩) acc
          (replayHandle tf) e) st).syncs = st.syncs ∧
      ∀ p ∈ (dataL.foldl (fun acc e => replayEntry env (jsonData env ⟨0, tf, false⟩) acc
          (replayHandle tf) e) st).pool, CleanEntry tf p := by
  intro dataL
  induction dataL with
  | nil => intro st hp _; exact ⟨by simp, rfl, hp⟩
  | cons e rest ih =>
    intro st hp hents
    obtain ⟨hT, hM, hKV, hL0, hL4, hkeys⟩ := hents e (List.mem_cons_self _ _)
    obtain ⟨ho, hs, hcl⟩ := replayEntry_step env tf st e hp hT hM hKV hL0 hL4 hkeys
    rw [List.foldl_cons]
    obtain ⟨ho2, hs2, hcl2⟩ := ih _ hcl (fun e2 h2 => hents e2 (List.mem_cons_of_mem _ h2))
    refine ⟨?_, ?_, hcl2⟩
    · rw [ho2, ho]
      simp [List.append_assoc]
    · rw [hs2, hs]

theorem initUnmount_prologue1 (env : LogEnv) (tf : List Nat) (out0 : List Nat) (sy : Nat) :
    WithField (jsonData env ⟨0, tf, false⟩) { pool := [], out := out0, syncs := sy }
      (mkHandle ⟨0, tf, false⟩) (gb "depth") (.vStr (gb "disable")) =
      ({ replayHandle tf with Logger := false },
       { pool := [], out := out0, syncs := sy }) := rfl

theorem initUnmount_prologue2 (env : LogEnv) (tf : List Nat) (out0 : List Nat) (sy : Nat) :
    WithField (jsonData env ⟨0, tf, false⟩) { pool := [], out := out0, syncs := sy }
      { replayHandle tf with Logger := false } (gb "logger") (.vBool true) =
      (replayHandle tf, { pool := [], out := out0, syncs := sy }) := rfl

/-- C3 counterexample: with a real logger whose threshold is Warning, a
buffered Debug entry (non-empty message "x") produces NO output line on
replay — the buffered entry does not appear in the real logger's output,
refuting the claim for arbitrary attached loggers. -/
theorem C3_counterexample :
    (initUnmount env0 (jsonData env0 cfgWarn) [entC3] (mkHandle cfgWarn) st0).2.out =
      st0.out ∧ entC3.Message ≠ [] :=
  ⟨rfl, by decide⟩

/-- C3 amended: when the real logger attached at replay is a fresh default
JSON-backend logger (threshold Debug, caller capture off) and every
buffered entry has a nonzero time stamp, a non-empty message, equal numbers
of keys and values, a severity in 0..4 and no control-key field names, then
triggering replay appends to the output exactly one line per buffered entry,
in the original emission order, each with its original Time, its original
severity name and its fields in their original order; afterwards the buffer
list is emptied and the real logger is flushed once.  (Unamended the claim
fails: a real logger with a higher threshold suppresses buffered entries —
see the counterexample; control-key fields would be intercepted rather than
re-attached, and an empty-message entry renders no line.) -/
theorem C3_buffered_replay (env : LogEnv) (cfg : LoggerStdConfig)
    (dataL : List LoggerStd) (out0 : List Nat) (sy : Nat)
    (hcfg : cfg.Level = 0) (hfl : cfg.FileLine = false)
    (hents : ∀ e ∈ dataL, e.Time ≠ 0 ∧ e.Message ≠ [] ∧
      e.Keys.length = e.Vals.length ∧ 0 ≤ e.Level ∧ e.Level ≤ 4 ∧
      (∀ k ∈ e.Keys, k ≠ gb "context" ∧ k ≠ gb "depth" ∧
        k ≠ gb "time" ∧ k ≠ gb "logger")) :
    (initUnmount env (jsonData env cfg) dataL (mkHandle cfg)
        { pool := [], out := out0, syncs := sy }).1 = [] ∧
    (initUnmount env (jsonData env cfg) dataL (mkHandle cfg)
        { pool := [], out := out0, syncs := sy }).2.out =
      out0 ++ (dataL.map (replayLine env cfg)).flatten ∧
    (initUnmount env (jsonData env cfg) dataL (mkHandle cfg)
        { pool := [], out := out0, syncs := sy }).2.syncs = sy + 1 := by
  obtain ⟨lv, tf, fl⟩ := cfg
  dsimp only at hcfg hfl
  subst hcfg hfl
  unfold initUnmount
  rw [initUnmount_prologue1]
  dsimp only
  rw [initUnmount_prologue2]
  dsimp only
  obtain ⟨ho, hs, _⟩ := replay_fold env tf dataL { pool := [], out := out0, syncs := sy }
    (by intro p hp; cases hp) hents
  have hsync : ∀ stx : JsonState, (jsonData env ⟨0, tf, false⟩).sync stx =
      { stx with syncs := stx.syncs + 1 } := fun _ => rfl
  refine ⟨rfl, ?_, ?_⟩
  · rw [hsync]
    dsimp only
    rw [ho]
  · rw [hsync]
    dsimp only
    rw [hs]

/-- Witness for the amended C3: one buffered Debug entry replayed through a
fresh default logger appears exactly once with its own time, severity and
field. -/
theorem C3_buffered_replay_witness :
    (initUnmount env0 (jsonData env0 cfg0) [entC3] (mkHandle cfg0)
        { pool := [], out := [], syncs := 0 }).1 = [] ∧
    (initUnmount env0 (jsonData env0 cfg0) [entC3] (mkHandle cfg0)
        { pool := [], out := [], syncs := 0 }).2.out =
      [] ++ ([entC3].map (replayLine env0 cfg0)).flatten ∧
    (initUnmount env0 (jsonData env0 cfg0) [entC3] (mkHandle cfg0)
        { pool := [], out := [], syncs := 0 }).2.syncs = 0 + 1 :=
  C3_buffered_replay env0 cfg0 [entC3] [] 0 rfl rfl (by decide)

/-- The probing loop adopts exactly the least admissible candidate: if the
first `k` candidates from the current index are all at or above the
threshold and candidate `k` is below it, the probe ends on candidate `k`,
having advanced the index past it, recorded its existing size, flushed and
closed the previous file and invoked every callback with its name. -/
theorem rotateProbe_adopt (env : RotEnv) (fs : List (List Nat × Nat)) :
    ∀ (k fuel : Nat) (st : RotState), k < fuel →
    (∀ i : Nat, i < k →
      st.MaxSize ≤ fsSize fs (candN env st.name (st.nextindex + (i : Int)))) →
    fsSize fs (candN env st.name (st.nextindex + (k : Int))) < st.MaxSize →
    rotateProbe env fs fuel st = some
      { st with
        nextindex := st.nextindex + (k : Int) + 1,
        nbytes := fsSize fs (candN env st.name (st.nextindex + (k : Int))),
        curFile := some (candN env st.name (st.nextindex + (k : Int))),
        events := st.events ++ closeEvents st.curFile
          ++ st.newfn.map
            (fun i => RotEvent.cb i (candN env st.name (st.nextindex + (k : Int)))) } := by
  intro k
  induction k with
  | zero =>
    intro fuel st hf _ hk
    cases fuel with
    | zero => omega
    | succ fuel =>
      unfold rotateProbe
      dsimp only
      rw [if_pos (by simpa using hk)]
      simp
  | succ k ih =>
    intro fuel st hf hmin hk
    cases fuel with
    | zero => omega
    | succ fuel =>
      unfold rotateProbe
      dsimp only
      rw [if_neg (show ¬ fsSize fs (candN env st.name st.nextindex) < st.MaxSize by
        have := hmin 0 (by omega)
        simpa using this)]
      have e1 : ∀ j : Nat, st.nextindex + 1 + (j : Int) = st.nextindex + ((j + 1 : Nat) : Int) := by
        intro j; push_cast; ring
      rw [ih fuel _ (by omega)
        (by
          intro i hi
          dsimp only
          rw [e1 i]
          exact hmin (i + 1) (by omega))
        (by
          dsimp only
          rw [e1 k]
          exact hk)]
      dsimp only
      rw [e1 k]

/-- C7: on the rotating writer, a `Write` whose payload would bring the
byte count to `MaxSize` or beyond rotates before writing: candidate names
are probed from the current index upward, the first whose existing size is
below `MaxSize` is adopted, the previous file is flushed and closed, every
registered callback is invoked with the adopted name, and only then is the
payload written; the index moves past the adopted candidate and the byte
count restarts from the adopted file's existing size. -/
theorem C7_size_rotation (env : RotEnv) (fs : List (List Nat × Nat))
    (p : List Nat) (st : RotState) (f : List Nat) (k : Nat)
    (hsz : st.MaxSize ≤ st.nbytes + p.length)
    (htime : env.now ≤ st.nexttime)
    (hcur : st.curFile = some f)
    (hfuel : k ≤ fs.length)
    (hmin : ∀ i : Nat, i < k →
      st.MaxSize ≤ fsSize fs (candN env st.name (st.nextindex + (i : Int))))
    (hk : fsSize fs (candN env st.name (st.nextindex + (k : Int))) < st.MaxSize) :
    rotWrite env fs p st = some
      { st with
        nextindex := st.nextindex + (k : Int) + 1,
        nbytes := fsSize fs (candN env st.name (st.nextindex + (k : Int)))
          + p.length,
        curFile := some (candN env st.name (st.nextindex + (k : Int))),
        events := st.events
          ++ [RotEvent.flushed f, RotEvent.closedPrev f]
          ++ st.newfn.map
            (fun i => RotEvent.cb i (candN env st.name (st.nextindex + (k : Int))))
          ++ [RotEvent.wrote p]
          ++ (if st.std then [RotEvent.stdout p] else []) } := by
  unfold rotWrite rotateFile
  rw [if_pos hsz, rotateProbe_adopt env fs k (fs.length + 1) st (by omega) hmin hk]
  dsimp only
  rw [if_neg (show ¬ st.nexttime < env.now by omega)]
  dsimp only
  rw [hcur]
  simp [closeEvents, List.append_assoc]

/-- Witness for C7 at a concrete writer: candidate 0 is full, so the probe
adopts candidate 1, closes the previous file, runs both callbacks with the
adopted name and then writes the payload. -/
theorem C7_size_rotation_witness :
    rotWrite envC7 fsC7 (gb "ab") stC7 = some
      { stC7 with
        nextindex := stC7.nextindex + ((1 : Nat) : Int) + 1,
        nbytes := fsSize fsC7 (candN envC7 stC7.name (stC7.nextindex + ((1 : Nat) : Int)))
          + (gb "ab").length,
        curFile := some (candN envC7 stC7.name (stC7.nextindex + ((1 : Nat) : Int))),
        events := stC7.events
          ++ [RotEvent.flushed (gb "log0.txt"), RotEvent.closedPrev (gb "log0.txt")]
          ++ stC7.newfn.map
            (fun i => RotEvent.cb i (candN envC7 stC7.name (stC7.nextindex + ((1 : Nat) : Int))))
          ++ [RotEvent.wrote (gb "ab")]
          ++ (if stC7.std then [RotEvent.stdout (gb "ab")] else []) } :=
  C7_size_rotation envC7 fsC7 (gb "ab") stC7 (gb "log0.txt") 1
    (by decide) (by decide) rfl (by decide) (by decide) (by decide)
